import Mathlib

/-!
Shallow embedding of the room session state machine of `src/server.js`
(a real-time party-game WebSocket server).  JavaScript `Map`s become
association lists (insertion order preserved, `set` on an absent key
appends at the end, `set` on a present key updates in place, `delete`
removes the single entry for the key), JS `Set<WebSocket>` becomes a
list of `Client` records in insertion order, and the non-deterministic
collaborators (`Math.random`-based `genId` and `shuffleInPlace`) become
explicit parameters (`gen : Nat → String`, a shuffle function
hypothesised to produce a permutation).  Messages sent over the
transport are modelled by a list of `OutMsg` tokens returned next to the
new room state; `OutMsg.broadcast` stands for one `broadcastRoom` call
and `OutMsg.roundOverAll` for the `round_over` fan-out loop.
-/

namespace Rooms

/-- The five phases of `room.phase` in `src/server.js`. -/
inductive Phase where
  | lobby
  | answering
  | reveal
  | voting
  | results
deriving DecidableEq, Repr

/-- One connected WebSocket: `ws.id` and `ws.nickname`. -/
structure Client where
  id : String
  nickname : String
deriving DecidableEq, Repr

/-- A value of `room.answers`: `{ nickname, answer }`. -/
structure Submission where
  nickname : String
  answer : String
deriving DecidableEq, Repr

/-- One entry of `room.shuffled`: `{ id, ownerId, nickname, answer }`. -/
structure AnswerEntry where
  id : String
  ownerId : String
  nickname : String
  answer : String
deriving DecidableEq, Repr

/-- Association-list lookup, mirroring `Map.get` (first entry wins). -/
def getA {β : Type} : List (String × β) → String → Option β
  | [], _ => none
  | (k', v) :: t, k => if k' = k then some v else getA t k

/-- `Map.has`. -/
def hasKeyA {β : Type} (l : List (String × β)) (k : String) : Bool :=
  (getA l k).isSome

/-- `Map.set`: update in place when the key is present, append otherwise. -/
def setA {β : Type} : List (String × β) → String → β → List (String × β)
  | [], k, v => [(k, v)]
  | (k', v') :: t, k, v => if k' = k then (k, v) :: t else (k', v') :: setA t k v

/-- `Map.delete`: remove the (single) entry for the key. -/
def eraseA {β : Type} : List (String × β) → String → List (String × β)
  | [], _ => []
  | (k', v') :: t, k => if k' = k then t else (k', v') :: eraseA t k

/-- Keys of an association list, in insertion order. -/
def keysA {β : Type} (l : List (String × β)) : List String :=
  l.map Prod.fst

/-- The full mutable state of one room (`rooms[code]` in `src/server.js`). -/
structure Room where
  clients : List Client
  locked : Bool
  hostId : Option String
  phase : Phase
  answers : List (String × Submission)
  shuffled : List AnswerEntry
  revealCount : Nat
  votes : List (String × String)
  tallies : List (String × Nat)
  scores : List (String × Int)
  resultsRevealCount : Nat
deriving DecidableEq, Repr

/-- The fresh room built by `getRoom` on first access. -/
def initialRoom : Room :=
  { clients := [], locked := false, hostId := none, phase := Phase.lobby
    answers := [], shuffled := [], revealCount := 0
    votes := [], tallies := [], scores := [], resultsRevealCount := 0 }

/-- Messages the handlers emit (transport side effects). -/
inductive OutMsg where
  | youAre (clientId : String)
  | joinRejected
  | errMsg (message : String)
  | submittedOk
  | voteOk
  | roundOverAll
  | broadcast
deriving DecidableEq, Repr

/-- JavaScript `String.prototype.trim`: strip leading and trailing
whitespace.  (`String.trim` of the Lean core library computes the same
string but is opaque to kernel reduction, so the JS operation is
embedded directly over the character list.) -/
def trimStr (s : String) : String :=
  ⟨((s.data.dropWhile Char.isWhitespace).reverse.dropWhile Char.isWhitespace).reverse⟩

/-- JavaScript `String.prototype.slice(0, n)`. -/
def takeStr (s : String) (n : Nat) : String :=
  ⟨s.data.take n⟩

/-- Nickname normalisation performed by the `join` handler:
`String(data.nickname || "Anonymous").trim().slice(0, 18)`. -/
def normalizeNick (raw : String) : String :=
  takeStr (trimStr (if raw = "" then "Anonymous" else raw)) 18

/-- `ensureScore`: initialise a missing score entry to 0. -/
def ensureScore (scores : List (String × Int)) (ownerId : String) :
    List (String × Int) :=
  if hasKeyA scores ownerId then scores else scores ++ [(ownerId, 0)]

/-- Read a score the way the server does after `ensureScore`
(`Map.get`, with a missing key read as 0). -/
def getS (scores : List (String × Int)) (k : String) : Int :=
  (getA scores k).getD 0

/-- Tally read `room.tallies.get(a.id) || 0`. -/
def getT (tallies : List (String × Nat)) (k : String) : Nat :=
  (getA tallies k).getD 0

/-- One step of the `computeTallies` loop: `t.set(answerId, (t.get(answerId) || 0) + 1)`. -/
def bumpTally (t : List (String × Nat)) (answerId : String) : List (String × Nat) :=
  setA t answerId (getT t answerId + 1)

/-- `computeTallies`: frequency count of the values of `room.votes`,
built into a fresh map. -/
def computeTallies (r : Room) : Room :=
  { r with tallies := r.votes.foldl (fun t p => bumpTally t p.2) [] }

/-- The body of the `applyScoring` loop for one `(voterId, answerId)`
vote: resolve the target entry (skip when unresolved), lazily initialise
both scores, give the voter +1 when the owner is `"AI"` and −1
otherwise, and give the owner +1. -/
def scoreStep (shuffled : List AnswerEntry) (scores : List (String × Int))
    (vote : String × String) : List (String × Int) :=
  match shuffled.find? (fun a => a.id = vote.2) with
  | none => scores
  | some picked =>
    let s1 := ensureScore scores vote.1
    let s2 := ensureScore s1 picked.ownerId
    let s3 :=
      if picked.ownerId = "AI" then setA s2 vote.1 (getS s2 vote.1 + 1)
      else setA s2 vote.1 (getS s2 vote.1 - 1)
    setA s3 picked.ownerId (getS s3 picked.ownerId + 1)

/-- `applyScoring`: fold `scoreStep` over all votes in insertion order. -/
def applyScoring (r : Room) : Room :=
  { r with scores := r.votes.foldl (scoreStep r.shuffled) r.scores }

/-- Close of a completed voting round (shared by the `submit_vote` and
`close` handlers): recompute tallies, apply scoring, move to `results`
with `resultsRevealCount = 0`. -/
def closeVoting (r : Room) : Room :=
  { applyScoring (computeTallies r) with
      phase := Phase.results, resultsRevealCount := 0 }

/-- `resetRound`: clear all per-round data. -/
def resetRound (r : Room) : Room :=
  { r with answers := [], shuffled := [], revealCount := 0
           votes := [], tallies := [], resultsRevealCount := 0 }

/-- `maybeAssignNewHost`: keep the host when still connected, otherwise
promote the first client in insertion order (or clear when empty). -/
def maybeAssignNewHost (r : Room) : Room :=
  if r.hostId ≠ none ∧ r.clients.any (fun c => some c.id = r.hostId) then r
  else { r with hostId := (r.clients.head?).map Client.id }

/-- The `join` handler, after `getRoom` (the room may be fresh).  The
caller's connection is `wsId`; `rawNickname` is `data.nickname`. -/
def joinRoom (r : Room) (wsId rawNickname : String) : Room × List OutMsg :=
  if r.locked then (r, [OutMsg.joinRejected])
  else
    ({ r with
        clients := r.clients ++ [⟨wsId, normalizeNick rawNickname⟩]
        hostId := if r.hostId = none then some wsId else r.hostId
        scores := ensureScore (ensureScore r.scores wsId) "AI" },
     [OutMsg.youAre wsId, OutMsg.broadcast])

/-- The `start_game` handler (host only). -/
def startGame (r : Room) (wsId : String) : Room × List OutMsg :=
  if r.hostId ≠ some wsId then
    (r, [OutMsg.errMsg "Only the host can start the game."])
  else
    (resetRound { r with locked := true, phase := Phase.answering },
     [OutMsg.broadcast])

/-- The fixed text of the synthetic answer. -/
def aiAnswerText : String := "LOREM IPSUM (fake AI answer)"

/-- Deck construction at round close: one entry per submission (fresh
ids from `gen`) plus the synthetic `"AI"` entry, before shuffling. -/
def buildDeck (answers : List (String × Submission)) (gen : Nat → String) :
    List AnswerEntry :=
  (answers.enum.map (fun p => ⟨gen p.1, p.2.1, p.2.2.nickname, p.2.2.answer⟩))
    ++ [⟨gen answers.length, "AI", "AI", aiAnswerText⟩]

/-- The `submit_answer` handler.  `gen` supplies the random ids of
`genId` and `shuffle` the random permutation of `shuffleInPlace`. -/
def submitAnswer (r : Room) (wsId nick rawAnswer : String) (gen : Nat → String)
    (shuffle : List AnswerEntry → List AnswerEntry) : Room × List OutMsg :=
  if r.locked = false ∨ r.phase ≠ Phase.answering then
    (r, [OutMsg.errMsg "Game not started yet."])
  else if trimStr rawAnswer = "" then (r, [])
  else if hasKeyA r.answers wsId then (r, [OutMsg.submittedOk])
  else if 0 < r.clients.length ∧ r.clients.length ≤
      (r.answers ++ [(wsId, (⟨nick, trimStr rawAnswer⟩ : Submission))]).length
      then
    ({ r with
        answers := r.answers ++
          [(wsId, (⟨nick, trimStr rawAnswer⟩ : Submission))]
        shuffled := shuffle (buildDeck
          (r.answers ++ [(wsId, (⟨nick, trimStr rawAnswer⟩ : Submission))])
          gen)
        phase := Phase.reveal
        revealCount := 0 },
     [OutMsg.submittedOk, OutMsg.broadcast, OutMsg.roundOverAll,
      OutMsg.broadcast])
  else ({ r with answers := r.answers ++
          [(wsId, (⟨nick, trimStr rawAnswer⟩ : Submission))] },
        [OutMsg.submittedOk, OutMsg.broadcast])

/-- The `next_answer` handler (reveal phase, host only). -/
def nextAnswer (r : Room) (wsId : String) : Room × List OutMsg :=
  if r.phase ≠ Phase.reveal then (r, [])
  else if r.hostId ≠ some wsId then
    (r, [OutMsg.errMsg "Only the host can reveal the next answer."])
  else if r.revealCount < r.shuffled.length then
    if r.shuffled.length ≤ r.revealCount + 1 then
      ({ r with revealCount := r.revealCount + 1, phase := Phase.voting
                votes := [], tallies := [], resultsRevealCount := 0 },
       [OutMsg.broadcast])
    else ({ r with revealCount := r.revealCount + 1 }, [OutMsg.broadcast])
  else (r, [])

/-- The `submit_vote` handler. -/
def submitVote (r : Room) (wsId rawAnswerId : String) : Room × List OutMsg :=
  if r.phase ≠ Phase.voting then
    (r, [OutMsg.errMsg "Voting is not active."])
  else if hasKeyA r.votes wsId then (r, [OutMsg.voteOk])
  else if trimStr rawAnswerId = "" then (r, [])
  else
    match r.shuffled.find? (fun a => a.id = trimStr rawAnswerId) with
    | none => (r, [])
    | some picked =>
      if picked.ownerId = wsId then
        (r, [OutMsg.errMsg "You cannot vote for your own answer."])
      else if 0 < r.clients.length ∧ r.clients.length ≤
          (r.votes ++ [(wsId, trimStr rawAnswerId)]).length then
        (closeVoting { r with votes := r.votes ++ [(wsId, trimStr rawAnswerId)] },
         [OutMsg.voteOk, OutMsg.broadcast, OutMsg.broadcast])
      else ({ r with votes := r.votes ++ [(wsId, trimStr rawAnswerId)] },
            [OutMsg.voteOk, OutMsg.broadcast])

/-- The `next_result` handler (results phase, host only). -/
def nextResult (r : Room) (wsId : String) : Room × List OutMsg :=
  if r.phase ≠ Phase.results then (r, [])
  else if r.hostId ≠ some wsId then
    (r, [OutMsg.errMsg "Only the host can reveal the next result."])
  else if r.resultsRevealCount < r.shuffled.length then
    ({ r with resultsRevealCount := r.resultsRevealCount + 1 },
     [OutMsg.broadcast])
  else (r, [])

/-- The `new_round` handler (host only): back to answering, scores and
lock retained. -/
def newRound (r : Room) (wsId : String) : Room × List OutMsg :=
  if r.hostId ≠ some wsId then
    (r, [OutMsg.errMsg "Only the host can start a new round."])
  else
    (resetRound { r with phase := Phase.answering }, [OutMsg.broadcast])

/-- The `reset_game` handler (host only): unlock, back to lobby, wipe
scores and re-initialise a zero entry per connected client plus `"AI"`. -/
def resetGame (r : Room) (wsId : String) : Room × List OutMsg :=
  if r.hostId ≠ some wsId then
    (r, [OutMsg.errMsg "Only the host can reset the game."])
  else
    ({ resetRound { r with locked := false, phase := Phase.lobby } with
        scores := ensureScore (r.clients.foldl (fun s c => ensureScore s c.id)
          ([] : List (String × Int))) "AI" },
     [OutMsg.broadcast])

/-- First half of the `close` handler: drop the connection from
`clients` and delete its pending answer and vote. -/
def removeClient (r : Room) (wsId : String) : Room :=
  { r with clients := r.clients.filter (fun c => c.id ≠ wsId)
           answers := eraseA r.answers wsId
           votes := eraseA r.votes wsId }

/-- Second half of the `close` handler, applied to the room after
membership removal and host migration: destroy an empty room, otherwise
retroactively complete a voting round that the departure finished. -/
def disconnectAux (r2 : Room) : Option Room :=
  if r2.clients.length = 0 then none
  else if r2.phase = Phase.voting ∧ 0 < r2.clients.length ∧
      r2.clients.length ≤ r2.votes.length then
    some (closeVoting r2)
  else some r2

/-- The `close` handler for connection `wsId`.  `none` means the room
became empty and was deleted from the registry. -/
def disconnect (r : Room) (wsId : String) : Option Room :=
  disconnectAux (maybeAssignNewHost (removeClient r wsId))

/-! ## The view projector (`buildSharedState` / `broadcastRoom`) -/

/-- An anonymous entry of `revealedAnswers`: `{ text }` only — record
type carries neither id nor author. -/
structure RevealedAnswer where
  text : String
deriving DecidableEq, Repr

/-- An anonymous voting option `{ id, text }`. -/
structure VoteOption where
  id : String
  text : String
deriving DecidableEq, Repr

/-- A fully revealed result `{ id, text, votes, author, isAI }`. -/
structure ResultEntry where
  id : String
  text : String
  voteCount : Nat
  author : String
  isAI : Bool
deriving DecidableEq, Repr

/-- A leaderboard row `{ id, name, score }`. -/
structure ScoreRow where
  id : String
  name : String
  score : Int
deriving DecidableEq, Repr

/-- `buildScoresPayload`: one row per connected client plus `"AI"`,
sorted by score descending (JS `Array.prototype.sort` is stable;
insertion sort is its stable counterpart here).  The in-place
`ensureScore` calls only add zero entries, which `getS`'s default-0 read
makes observationally identical. -/
def buildScoresPayload (r : Room) : List ScoreRow :=
  let list := r.clients.map (fun c => ⟨c.id, c.nickname, getS r.scores c.id⟩)
    ++ [⟨"AI", "AI", getS r.scores "AI"⟩]
  list.insertionSort (fun a b => b.score ≤ a.score)

/-- The personalized snapshot one recipient receives in `room_update`
(shared fields of `buildSharedState` plus the per-client fields added by
`broadcastRoom`). -/
structure Snapshot where
  users : List String
  locked : Bool
  hostId : Option String
  phase : Phase
  submittedCount : Nat
  totalPlayers : Nat
  revealCount : Nat
  totalAnswers : Nat
  revealedAnswers : List RevealedAnswer
  voteOptions : List VoteOption
  totalVotes : Nat
  resultsRevealCount : Nat
  revealedResults : List ResultEntry
  scores : List ScoreRow
  youSubmitted : Bool
  youVoted : Bool
  yourVote : Option String
deriving DecidableEq, Repr

/-- `buildSharedState` + the personalization of `broadcastRoom`, for
recipient `pid`. -/
def renderFor (r : Room) (pid : String) : Snapshot :=
  let revealedAnswers :=
    if r.phase = Phase.reveal then
      (r.shuffled.take r.revealCount).map (fun a => ⟨a.answer⟩)
    else []
  let voteOptions :=
    if r.phase = Phase.voting ∨ r.phase = Phase.results then
      r.shuffled.map (fun a => ⟨a.id, a.answer⟩)
    else []
  let revealedResults :=
    if r.phase = Phase.results then
      (r.shuffled.take r.resultsRevealCount).map
        (fun a => ⟨a.id, a.answer, getT r.tallies a.id, a.nickname,
                   a.ownerId = "AI"⟩)
    else []
  { users := r.clients.map Client.nickname
    locked := r.locked
    hostId := r.hostId
    phase := r.phase
    submittedCount := r.answers.length
    totalPlayers := r.clients.length
    revealCount := r.revealCount
    totalAnswers := r.shuffled.length
    revealedAnswers := revealedAnswers
    voteOptions := voteOptions
    totalVotes := r.votes.length
    resultsRevealCount := r.resultsRevealCount
    revealedResults := revealedResults
    scores := buildScoresPayload r
    youSubmitted := hasKeyA r.answers pid
    youVoted := hasKeyA r.votes pid
    yourVote := getA r.votes pid }

/-! ## Reachability

A room is reachable when it arises from the fresh `getRoom` room by a
sequence of handler invocations.  The side conditions on each step
record transport-level facts of the server: a joining connection's
`genId` token is lowercase base-36 (hence never the sentinel `"AI"`) and
fresh (the `clients` set holds distinct connections), and every
non-`join` handler runs for a `ws` whose `ws.room` is set, i.e. for a
current member of `clients` (with its own `ws.nickname`). -/

inductive Reachable : Room → Prop where
  | init : Reachable initialRoom
  | join {r : Room} {wsId nick : String} : Reachable r → wsId ≠ "AI" →
      wsId ∉ r.clients.map Client.id → Reachable (joinRoom r wsId nick).1
  | start {r : Room} {wsId : String} : Reachable r →
      wsId ∈ r.clients.map Client.id → Reachable (startGame r wsId).1
  | answer {r : Room} {wsId nick raw : String} {gen : Nat → String}
      {shuffle : List AnswerEntry → List AnswerEntry} : Reachable r →
      (⟨wsId, nick⟩ : Client) ∈ r.clients →
      Reachable (submitAnswer r wsId nick raw gen shuffle).1
  | next {r : Room} {wsId : String} : Reachable r →
      wsId ∈ r.clients.map Client.id → Reachable (nextAnswer r wsId).1
  | vote {r : Room} {wsId raw : String} : Reachable r →
      wsId ∈ r.clients.map Client.id → Reachable (submitVote r wsId raw).1
  | nextRes {r : Room} {wsId : String} : Reachable r →
      wsId ∈ r.clients.map Client.id → Reachable (nextResult r wsId).1
  | newR {r : Room} {wsId : String} : Reachable r →
      wsId ∈ r.clients.map Client.id → Reachable (newRound r wsId).1
  | reset {r : Room} {wsId : String} : Reachable r →
      wsId ∈ r.clients.map Client.id → Reachable (resetGame r wsId).1
  | close {r r' : Room} {wsId : String} : Reachable r →
      wsId ∈ r.clients.map Client.id → disconnect r wsId = some r' →
      Reachable r'

/-! ## Association-list lemmas -/

theorem getA_eq_none_iff {β : Type} (l : List (String × β)) (k : String) :
    getA l k = none ↔ k ∉ keysA l := by
  induction l with
  | nil => simp [getA, keysA]
  | cons p t ih =>
    obtain ⟨k', v⟩ := p
    have hkeys : keysA ((k', v) :: t) = k' :: keysA t := rfl
    rw [hkeys]
    by_cases h : k' = k
    · subst h
      simp [getA]
    · simp only [getA, if_neg h, ih, List.mem_cons, not_or]
      have hne : ¬k = k' := fun hc => h hc.symm
      tauto

theorem hasKeyA_iff_mem {β : Type} (l : List (String × β)) (k : String) :
    hasKeyA l k = true ↔ k ∈ keysA l := by
  rw [hasKeyA, Option.isSome_iff_ne_none, ne_eq, getA_eq_none_iff, not_not]

theorem hasKeyA_eq_false_iff {β : Type} (l : List (String × β)) (k : String) :
    hasKeyA l k = false ↔ k ∉ keysA l := by
  rw [← Bool.not_eq_true, not_iff_not, hasKeyA_iff_mem]

theorem keysA_append {β : Type} (l₁ l₂ : List (String × β)) :
    keysA (l₁ ++ l₂) = keysA l₁ ++ keysA l₂ := by
  simp [keysA]

theorem getA_append {β : Type} (l₁ l₂ : List (String × β)) (k : String) :
    getA (l₁ ++ l₂) k = (getA l₁ k).or (getA l₂ k) := by
  induction l₁ with
  | nil => simp [getA]
  | cons p t ih =>
    obtain ⟨k', v⟩ := p
    by_cases h : k' = k <;> simp [getA, h, ih]

theorem eraseA_sublist {β : Type} (l : List (String × β)) (k : String) :
    List.Sublist (eraseA l k) l := by
  induction l with
  | nil => simp [eraseA]
  | cons p t ih =>
    obtain ⟨k', v⟩ := p
    by_cases h : k' = k
    · simp only [eraseA, if_pos h]
      exact List.sublist_cons_self _ _
    · simp only [eraseA, if_neg h]
      exact List.Sublist.cons₂ _ ih

theorem keysA_eraseA_sublist {β : Type} (l : List (String × β)) (k : String) :
    List.Sublist (keysA (eraseA l k)) (keysA l) :=
  List.Sublist.map Prod.fst (eraseA_sublist l k)

theorem getA_eraseA_self {β : Type} (l : List (String × β)) (k : String)
    (h : (keysA l).Nodup) : getA (eraseA l k) k = none := by
  induction l with
  | nil => simp [eraseA, getA]
  | cons p t ih =>
    obtain ⟨k', v⟩ := p
    simp only [keysA, List.map_cons, List.nodup_cons] at h
    by_cases hk : k' = k
    · subst hk
      simp only [eraseA, if_pos rfl]
      rw [getA_eq_none_iff]
      exact h.1
    · simp only [eraseA, if_neg hk, getA, if_neg hk]
      exact ih h.2

theorem mem_keysA_setA {β : Type} {l : List (String × β)} {k k' : String}
    {v : β} (h : k' ∈ keysA (setA l k v)) : k' ∈ keysA l ∨ k' = k := by
  induction l with
  | nil => simpa [setA, keysA] using h
  | cons p t ih =>
    obtain ⟨k₀, v₀⟩ := p
    by_cases hk : k₀ = k
    · simp only [setA, if_pos hk, keysA, List.map_cons, List.mem_cons] at h ⊢
      subst hk
      tauto
    · simp only [setA, if_neg hk, keysA, List.map_cons, List.mem_cons] at h ⊢
      rcases h with h | h
      · tauto
      · rcases ih h with h' | h' <;> tauto

/-- Sum of the values of a tally map. -/
def sumVals (t : List (String × Nat)) : Nat :=
  (t.map Prod.snd).sum

theorem sumVals_bumpTally (t : List (String × Nat)) (a : String) :
    sumVals (bumpTally t a) = sumVals t + 1 := by
  induction t with
  | nil => simp [bumpTally, setA, sumVals, getT, getA]
  | cons p t' ih =>
    obtain ⟨k, v⟩ := p
    by_cases hk : k = a
    · subst hk
      simp [bumpTally, setA, sumVals, getT, getA]
      omega
    · simp only [bumpTally, getT, getA, if_neg hk, setA, sumVals,
        List.map_cons, List.sum_cons] at ih ⊢
      rw [ih]
      omega

theorem sumVals_foldl_bump (l : List (String × String))
    (t0 : List (String × Nat)) :
    sumVals (l.foldl (fun t p => bumpTally t p.2) t0) =
      sumVals t0 + l.length := by
  induction l generalizing t0 with
  | nil => simp
  | cons p l' ih =>
    simp only [List.foldl_cons, List.length_cons]
    rw [ih, sumVals_bumpTally]
    omega

theorem mem_keys_foldl_bump {l : List (String × String)}
    {t0 : List (String × Nat)} {k : String}
    (h : k ∈ keysA (l.foldl (fun t p => bumpTally t p.2) t0)) :
    k ∈ keysA t0 ∨ k ∈ l.map Prod.snd := by
  induction l generalizing t0 with
  | nil => simpa using h
  | cons p l' ih =>
    simp only [List.foldl_cons] at h
    rcases ih h with h' | h'
    · rcases mem_keysA_setA h' with h'' | h'' <;> simp [h'']
    · simp [h']

theorem getS_setA_self (l : List (String × Int)) (k : String) (v : Int) :
    getS (setA l k v) k = v := by
  induction l with
  | nil => simp [setA, getS, getA]
  | cons p t ih =>
    obtain ⟨k₀, v₀⟩ := p
    by_cases hk : k₀ = k
    · simp [setA, if_pos hk, getS, getA]
    · simp only [setA, if_neg hk, getS, getA]
      exact ih

theorem getS_setA_ne (l : List (String × Int)) {k k' : String} (v : Int)
    (h : k' ≠ k) : getS (setA l k v) k' = getS l k' := by
  induction l with
  | nil =>
    simp only [setA, getS, getA]
    rw [if_neg (Ne.symm h)]
  | cons p t ih =>
    obtain ⟨k₀, v₀⟩ := p
    by_cases hk : k₀ = k
    · subst hk
      simp only [setA, if_pos rfl, getS, getA]
      rw [if_neg (Ne.symm h), if_neg (Ne.symm h)]
    · simp only [setA, if_neg hk, getS, getA]
      by_cases hk' : k₀ = k'
      · rw [if_pos hk', if_pos hk']
      · rw [if_neg hk', if_neg hk']
        exact ih

theorem getS_ensureScore (l : List (String × Int)) (k k' : String) :
    getS (ensureScore l k) k' = getS l k' := by
  unfold ensureScore
  by_cases h : hasKeyA l k
  · rw [if_pos h]
  · rw [if_neg h]
    unfold getS
    rw [getA_append]
    by_cases hk : k' = k
    · subst hk
      have hnone : getA l k' = none := by
        rw [getA_eq_none_iff]
        rw [Bool.not_eq_true, hasKeyA_eq_false_iff] at h
        exact h
      simp [hnone, getA]
    · have hnone : getA [(k, (0 : Int))] k' = none := by
        simp [getA, Ne.symm hk]
      rw [hnone]
      rcases h' : getA l k' with _ | v <;> simp

/-! ## The master invariant of reachable rooms -/

/-- Invariants maintained by every handler, proved by induction over
`Reachable`.  The auxiliary conjuncts (`votesNilAnswering`, `rrcZero`)
are needed to push the interesting ones through deck rebuilds and the
reveal/voting transitions. -/
structure Inv (r : Room) : Prop where
  ndClients : (r.clients.map Client.id).Nodup
  noAI : ∀ c ∈ r.clients, c.id ≠ "AI"
  ndAnswers : (keysA r.answers).Nodup
  answersSub : ∀ k ∈ keysA r.answers, k ∈ r.clients.map Client.id
  ndVotes : (keysA r.votes).Nodup
  votesSub : ∀ k ∈ keysA r.votes, k ∈ r.clients.map Client.id
  votesOk : ∀ p ∈ r.votes,
    ∃ e, r.shuffled.find? (fun a => a.id = p.2) = some e ∧ e.ownerId ≠ p.1
  revealLe : r.revealCount ≤ r.shuffled.length
  resultsLe : r.resultsRevealCount ≤ r.shuffled.length
  hostMem : ∀ h, r.hostId = some h → h ∈ r.clients.map Client.id
  hostSome : r.clients ≠ [] → r.hostId ≠ none
  votesNilAnswering : r.phase = Phase.answering → r.votes = []
  rrcZero : r.phase = Phase.answering ∨ r.phase = Phase.reveal ∨
    r.phase = Phase.voting → r.resultsRevealCount = 0

theorem inv_initial : Inv initialRoom := by
  constructor <;> simp [initialRoom, keysA]

theorem inv_join {r : Room} {wsId nick : String} (inv : Inv r)
    (hAI : wsId ≠ "AI") (hfresh : wsId ∉ r.clients.map Client.id) :
    Inv (joinRoom r wsId nick).1 := by
  unfold joinRoom
  by_cases hl : r.locked
  · simpa [hl] using inv
  · simp only [hl, Bool.false_eq_true, if_false]
    obtain ⟨c1, c2, c3, c4, c5, c6, c7, c8, c9, c10, c11, c12, c13⟩ := inv
    refine ⟨?_, ?_, c3, ?_, c5, ?_, c7, c8, c9, ?_, ?_, c12, c13⟩
    · simp only [List.map_append, List.map_cons, List.map_nil]
      rw [List.nodup_append]
      exact ⟨c1, List.nodup_singleton _, by simpa using hfresh⟩
    · intro c hc
      rcases List.mem_append.1 hc with hc | hc
      · exact c2 c hc
      · simp only [List.mem_singleton] at hc
        subst hc
        exact hAI
    · intro k hk
      simp only [List.map_append]
      exact List.mem_append_left _ (c4 k hk)
    · intro k hk
      simp only [List.map_append]
      exact List.mem_append_left _ (c6 k hk)
    · intro h hh
      by_cases hnone : r.hostId = none
      · simp only [hnone, if_true, Option.some_inj, reduceIte] at hh
        subst hh
        simp
      · simp only [if_neg hnone] at hh
        simp only [List.map_append]
        exact List.mem_append_left _ (c10 h hh)
    · intro _
      by_cases hnone : r.hostId = none <;> simp [hnone]

theorem inv_startGame {r : Room} {wsId : String} (inv : Inv r) :
    Inv (startGame r wsId).1 := by
  unfold startGame
  by_cases hh : r.hostId ≠ some wsId
  · simpa [hh] using inv
  · obtain ⟨c1, c2, c3, c4, c5, c6, c7, c8, c9, c10, c11, c12, c13⟩ := inv
    simp only [hh, if_false, reduceIte]
    exact ⟨c1, c2, by simp [resetRound, keysA], by simp [resetRound, keysA],
      by simp [resetRound, keysA], by simp [resetRound, keysA],
      by simp [resetRound], by simp [resetRound], by simp [resetRound],
      fun h hh' => c10 h hh', fun h => c11 h, by simp [resetRound],
      by simp [resetRound]⟩

theorem inv_newRound {r : Room} {wsId : String} (inv : Inv r) :
    Inv (newRound r wsId).1 := by
  unfold newRound
  by_cases hh : r.hostId ≠ some wsId
  · simpa [hh] using inv
  · obtain ⟨c1, c2, c3, c4, c5, c6, c7, c8, c9, c10, c11, c12, c13⟩ := inv
    simp only [hh, if_false, reduceIte]
    exact ⟨c1, c2, by simp [resetRound, keysA], by simp [resetRound, keysA],
      by simp [resetRound, keysA], by simp [resetRound, keysA],
      by simp [resetRound], by simp [resetRound], by simp [resetRound],
      fun h hh' => c10 h hh', fun h => c11 h, by simp [resetRound],
      by simp [resetRound]⟩

theorem inv_resetGame {r : Room} {wsId : String} (inv : Inv r) :
    Inv (resetGame r wsId).1 := by
  unfold resetGame
  by_cases hh : r.hostId ≠ some wsId
  · simpa [hh] using inv
  · obtain ⟨c1, c2, c3, c4, c5, c6, c7, c8, c9, c10, c11, c12, c13⟩ := inv
    simp only [hh, if_false, reduceIte]
    exact ⟨c1, c2, by simp [resetRound, keysA], by simp [resetRound, keysA],
      by simp [resetRound, keysA], by simp [resetRound, keysA],
      by simp [resetRound], by simp [resetRound], by simp [resetRound],
      fun h hh' => c10 h hh', fun h => c11 h, by simp [resetRound],
      by simp [resetRound]⟩

theorem inv_nextAnswer {r : Room} {wsId : String} (inv : Inv r) :
    Inv (nextAnswer r wsId).1 := by
  unfold nextAnswer
  by_cases hp : r.phase ≠ Phase.reveal
  · simpa [hp] using inv
  · simp only [hp, if_false, reduceIte]
    by_cases hh : r.hostId ≠ some wsId
    · simpa [hh] using inv
    · simp only [hh, if_false, reduceIte]
      by_cases hlt : r.revealCount < r.shuffled.length
      · simp only [hlt, if_true, reduceIte]
        obtain ⟨c1, c2, c3, c4, c5, c6, c7, c8, c9, c10, c11, c12, c13⟩ := inv
        by_cases hdone : r.shuffled.length ≤ r.revealCount + 1
        · simp only [hdone, if_true, reduceIte]
          exact ⟨c1, c2, c3, c4, by simp [keysA], by simp [keysA], by simp,
            by simp; omega, by simp, c10, c11, by simp, by simp⟩
        · simp only [hdone, if_false, reduceIte]
          refine ⟨c1, c2, c3, c4, c5, c6, c7, by simp; omega, ?_, c10, c11,
            ?_, ?_⟩
          · simpa using c9
          · intro h
            simp at h
            rw [h] at hp
            simp at hp
          · intro _
            push_neg at hp
            exact c13 (Or.inr (Or.inl hp))
      · simpa [hlt] using inv

theorem inv_nextResult {r : Room} {wsId : String} (inv : Inv r) :
    Inv (nextResult r wsId).1 := by
  unfold nextResult
  by_cases hp : r.phase ≠ Phase.results
  · simpa [hp] using inv
  · simp only [hp, if_false, reduceIte]
    by_cases hh : r.hostId ≠ some wsId
    · simpa [hh] using inv
    · simp only [hh, if_false, reduceIte]
      by_cases hlt : r.resultsRevealCount < r.shuffled.length
      · simp only [hlt, if_true, reduceIte]
        obtain ⟨c1, c2, c3, c4, c5, c6, c7, c8, c9, c10, c11, c12, c13⟩ := inv
        refine ⟨c1, c2, c3, c4, c5, c6, c7, c8, by simpa using hlt, c10, c11,
          ?_, ?_⟩
        · intro h
          simp at h
          rw [h] at hp
          simp at hp
        · intro h
          push_neg at hp
          rw [hp] at h
          simp at h
      · simpa [hlt] using inv

theorem inv_closeVoting {q : Room} (inv : Inv q) : Inv (closeVoting q) := by
  obtain ⟨c1, c2, c3, c4, c5, c6, c7, c8, c9, c10, c11, c12, c13⟩ := inv
  exact ⟨c1, c2, c3, c4, c5, c6, c7, c8, Nat.zero_le _, c10, c11,
    (fun h => nomatch h), (fun _ => rfl)⟩

theorem inv_submitAnswer {r : Room} {wsId nick raw : String}
    {gen : Nat → String} {shuffle : List AnswerEntry → List AnswerEntry}
    (inv : Inv r) (hmem : (⟨wsId, nick⟩ : Client) ∈ r.clients) :
    Inv (submitAnswer r wsId nick raw gen shuffle).1 := by
  by_cases hg : r.locked = false ∨ r.phase ≠ Phase.answering
  · simpa [submitAnswer, hg] using inv
  · have hg' := hg
    push_neg at hg'
    obtain ⟨hlock, hph⟩ := hg'
    by_cases he : trimStr raw = ""
    · simpa [submitAnswer, hg, he] using inv
    · by_cases hk : hasKeyA r.answers wsId
      · simpa [submitAnswer, hg, he, hk] using inv
      · have hwsNotIn : wsId ∉ keysA r.answers := by
          rw [Bool.not_eq_true] at hk
          exact (hasKeyA_eq_false_iff _ _).1 hk
        have hvnil : r.votes = [] := inv.votesNilAnswering hph
        have hrrc : r.resultsRevealCount = 0 := inv.rrcZero (Or.inl hph)
        have hwsId : wsId ∈ r.clients.map Client.id :=
          List.mem_map_of_mem Client.id hmem
        obtain ⟨c1, c2, c3, c4, c5, c6, c7, c8, c9, c10, c11, c12, c13⟩ := inv
        have hndA : (keysA (r.answers ++ [(wsId,
            (⟨nick, trimStr raw⟩ : Submission))])).Nodup := by
          rw [keysA_append, List.nodup_append]
          refine ⟨c3, List.nodup_singleton _, ?_⟩
          simpa [keysA] using hwsNotIn
        have hsubA : ∀ k ∈ keysA (r.answers ++ [(wsId,
            (⟨nick, trimStr raw⟩ : Submission))]),
            k ∈ r.clients.map Client.id := by
          intro k hmemk
          rw [keysA_append] at hmemk
          rcases List.mem_append.1 hmemk with hmemk | hmemk
          · exact c4 k hmemk
          · simp only [keysA, List.map_cons, List.map_nil,
              List.mem_singleton] at hmemk
            subst hmemk
            exact hwsId
        have hInvR1 : Inv { r with answers := r.answers ++ [(wsId,
            (⟨nick, trimStr raw⟩ : Submission))] } :=
          ⟨c1, c2, hndA, hsubA, c5, c6, c7, c8, c9, c10, c11,
            fun _ => hvnil, fun _ => hrrc⟩
        unfold submitAnswer
        rw [if_neg hg, if_neg he, if_neg hk]
        by_cases hclose : 0 < r.clients.length ∧
            r.clients.length ≤ (r.answers ++ [(wsId,
              (⟨nick, trimStr raw⟩ : Submission))]).length
        · rw [if_pos hclose]
          refine ⟨c1, c2, hndA, hsubA, ?_, ?_, ?_, Nat.zero_le _, ?_,
            c10, c11, fun _ => ?_, fun _ => ?_⟩
          · simp [hvnil, keysA]
          · simp [hvnil, keysA]
          · simp [hvnil]
          · show r.resultsRevealCount ≤ _
            rw [hrrc]
            exact Nat.zero_le _
          · exact hvnil
          · exact hrrc
        · rw [if_neg hclose]
          exact hInvR1

theorem inv_submitVote {r : Room} {wsId raw : String} (inv : Inv r)
    (hmem : wsId ∈ r.clients.map Client.id) :
    Inv (submitVote r wsId raw).1 := by
  by_cases hp : r.phase ≠ Phase.voting
  · simpa [submitVote, hp] using inv
  · push_neg at hp
    by_cases hk : hasKeyA r.votes wsId
    · simpa [submitVote, hp, hk] using inv
    · by_cases he : trimStr raw = ""
      · simpa [submitVote, hp, hk, he] using inv
      · rcases hfind : r.shuffled.find? (fun a => a.id = trimStr raw) with
          _ | picked
        · simpa [submitVote, hp, hk, he, hfind] using inv
        · by_cases hself : picked.ownerId = wsId
          · simpa [submitVote, hp, hk, he, hfind, hself] using inv
          · have hwsNotIn : wsId ∉ keysA r.votes := by
              rw [Bool.not_eq_true] at hk
              exact (hasKeyA_eq_false_iff _ _).1 hk
            obtain ⟨c1, c2, c3, c4, c5, c6, c7, c8, c9, c10, c11, c12, c13⟩ :=
              inv
            have hndV : (keysA (r.votes ++ [(wsId, trimStr raw)])).Nodup := by
              rw [keysA_append, List.nodup_append]
              refine ⟨c5, List.nodup_singleton _, ?_⟩
              simpa [keysA] using hwsNotIn
            have hsubV : ∀ k ∈ keysA (r.votes ++ [(wsId, trimStr raw)]),
                k ∈ r.clients.map Client.id := by
              intro k hmemk
              rw [keysA_append] at hmemk
              rcases List.mem_append.1 hmemk with hmemk | hmemk
              · exact c6 k hmemk
              · simp only [keysA, List.map_cons, List.map_nil,
                  List.mem_singleton] at hmemk
                subst hmemk
                exact hmem
            have hokV : ∀ p ∈ r.votes ++ [(wsId, trimStr raw)],
                ∃ e, r.shuffled.find? (fun a => a.id = p.2) = some e ∧
                  e.ownerId ≠ p.1 := by
              intro p hp'
              rcases List.mem_append.1 hp' with hp' | hp'
              · exact c7 p hp'
              · simp only [List.mem_singleton] at hp'
                subst hp'
                exact ⟨picked, hfind, hself⟩
            have hrrc : r.resultsRevealCount = 0 :=
              c13 (Or.inr (Or.inr hp))
            have hInvR1 : Inv { r with votes :=
                r.votes ++ [(wsId, trimStr raw)] } := by
              refine ⟨c1, c2, c3, c4, hndV, hsubV, hokV, c8, c9, c10, c11,
                fun h => ?_, fun _ => hrrc⟩
              have h2 : r.phase = Phase.answering := h
              rw [hp] at h2
              exact absurd h2 (by decide)
            have hnp : ¬(r.phase ≠ Phase.voting) := fun hc => hc hp
            unfold submitVote
            rw [if_neg hnp, if_neg hk, if_neg he, hfind]
            simp only []
            by_cases hclose : 0 < r.clients.length ∧
                r.clients.length ≤ (r.votes ++ [(wsId, trimStr raw)]).length
            · rw [if_neg hself, if_pos hclose]
              exact inv_closeVoting hInvR1
            · rw [if_neg hself, if_neg hclose]
              exact hInvR1

theorem mem_ids_filter {l : List Client} {k w : String}
    (hk : k ∈ l.map Client.id) (hne : k ≠ w) :
    k ∈ (l.filter (fun c => c.id ≠ w)).map Client.id := by
  rw [List.mem_map] at hk
  obtain ⟨c, hcmem, hcid⟩ := hk
  rw [List.mem_map]
  refine ⟨c, ?_, hcid⟩
  rw [List.mem_filter]
  refine ⟨hcmem, ?_⟩
  rw [decide_eq_true_eq, hcid]
  exact hne

theorem maybeAssign_eq (r : Room) :
    ∃ hid, maybeAssignNewHost r = { r with hostId := hid } := by
  unfold maybeAssignNewHost
  by_cases h : r.hostId ≠ none ∧ r.clients.any (fun c => some c.id = r.hostId)
  · rw [if_pos h]
    exact ⟨r.hostId, rfl⟩
  · rw [if_neg h]
    exact ⟨_, rfl⟩

theorem maybeAssign_hostMem (r : Room) :
    ∀ h, (maybeAssignNewHost r).hostId = some h →
      h ∈ r.clients.map Client.id := by
  unfold maybeAssignNewHost
  by_cases hc : r.hostId ≠ none ∧ r.clients.any (fun c => some c.id = r.hostId)
  · rw [if_pos hc]
    intro h hh
    obtain ⟨-, hany⟩ := hc
    rw [List.any_eq_true] at hany
    obtain ⟨c, hcmem, hcid⟩ := hany
    rw [decide_eq_true_eq] at hcid
    rw [hh, Option.some_inj] at hcid
    rw [← hcid]
    exact List.mem_map_of_mem Client.id hcmem
  · rw [if_neg hc]
    intro h hh
    have hh' : (r.clients.head?).map Client.id = some h := hh
    rcases hcl : r.clients with _ | ⟨c, t⟩
    · rw [hcl] at hh'
      simp at hh'
    · rw [hcl] at hh'
      simp only [List.head?_cons] at hh'
      have hh2 : c.id = h := by
        simpa using hh'
      subst hh2
      simp

theorem maybeAssign_hostSome (r : Room) (hne : r.clients ≠ []) :
    (maybeAssignNewHost r).hostId ≠ none := by
  unfold maybeAssignNewHost
  by_cases hc : r.hostId ≠ none ∧ r.clients.any (fun c => some c.id = r.hostId)
  · rw [if_pos hc]
    exact hc.1
  · rw [if_neg hc]
    show (r.clients.head?).map Client.id ≠ none
    rcases hcl : r.clients with _ | ⟨c, t⟩
    · exact absurd hcl hne
    · simp

theorem inv_disconnect {r r' : Room} {wsId : String} (inv : Inv r)
    (h : disconnect r wsId = some r') : Inv r' := by
  obtain ⟨c1, c2, c3, c4, c5, c6, c7, c8, c9, c10, c11, c12, c13⟩ := inv
  obtain ⟨hid, hq⟩ := maybeAssign_eq (removeClient r wsId)
  unfold disconnect at h
  rw [hq] at h
  unfold disconnectAux at h
  by_cases hlen :
      ({ removeClient r wsId with hostId := hid } : Room).clients.length = 0
  · rw [if_pos hlen] at h
    cases h
  · rw [if_neg hlen] at h
    have hne : (removeClient r wsId).clients ≠ [] := by
      intro hcontra
      apply hlen
      show (removeClient r wsId).clients.length = 0
      rw [hcontra]
      rfl
    have hInvQ : Inv { removeClient r wsId with hostId := hid } := by
      refine ⟨?_, ?_, ?_, ?_, ?_, ?_, ?_, c8, c9, ?_, ?_, ?_, ?_⟩
      · exact List.Nodup.sublist
          (List.Sublist.map Client.id (List.filter_sublist _)) c1
      · intro c hc
        exact c2 c (List.mem_of_mem_filter hc)
      · exact List.Nodup.sublist (keysA_eraseA_sublist _ _) c3
      · intro k hk
        have hk' : k ∈ keysA r.answers :=
          (keysA_eraseA_sublist r.answers wsId).subset hk
        have hkne : k ≠ wsId := by
          intro hcontra
          subst hcontra
          have : getA (eraseA r.answers k) k = none := getA_eraseA_self _ _ c3
          rw [getA_eq_none_iff] at this
          exact this hk
        exact mem_ids_filter (c4 k hk') hkne
      · exact List.Nodup.sublist (keysA_eraseA_sublist _ _) c5
      · intro k hk
        have hk' : k ∈ keysA r.votes :=
          (keysA_eraseA_sublist r.votes wsId).subset hk
        have hkne : k ≠ wsId := by
          intro hcontra
          subst hcontra
          have : getA (eraseA r.votes k) k = none := getA_eraseA_self _ _ c5
          rw [getA_eq_none_iff] at this
          exact this hk
        exact mem_ids_filter (c6 k hk') hkne
      · intro p hp
        exact c7 p ((eraseA_sublist r.votes wsId).subset hp)
      · intro hhost hh
        rw [← hq] at hh
        exact maybeAssign_hostMem (removeClient r wsId) hhost hh
      · intro _
        rw [← hq]
        exact maybeAssign_hostSome (removeClient r wsId) hne
      · intro hph
        have hph' : r.phase = Phase.answering := hph
        show eraseA r.votes wsId = []
        rw [c12 hph']
        rfl
      · intro hph
        exact c13 hph
    by_cases hvote : ({ removeClient r wsId with hostId := hid } : Room).phase
        = Phase.voting ∧
        0 < ({ removeClient r wsId with hostId := hid } : Room).clients.length
        ∧ ({ removeClient r wsId with hostId := hid } : Room).clients.length ≤
          ({ removeClient r wsId with hostId := hid } : Room).votes.length
    · rw [if_pos hvote] at h
      injection h with h'
      rw [← h']
      exact inv_closeVoting hInvQ
    · rw [if_neg hvote] at h
      injection h with h'
      rw [← h']
      exact hInvQ

/-- Every reachable room satisfies the master invariant. -/
theorem reachable_inv {r : Room} (h : Reachable r) : Inv r := by
  induction h with
  | init => exact inv_initial
  | join _ hAI hfresh ih => exact inv_join ih hAI hfresh
  | start _ _ ih => exact inv_startGame ih
  | answer _ hmem ih => exact inv_submitAnswer ih hmem
  | next _ _ ih => exact inv_nextAnswer ih
  | vote _ hmem ih =>
    exact inv_submitVote ih (by simpa using hmem)
  | nextRes _ _ ih => exact inv_nextResult ih
  | newR _ _ ih => exact inv_newRound ih
  | reset _ _ ih => exact inv_resetGame ih
  | close _ _ hdis ih => exact inv_disconnect ih hdis

/-! ## Scoring-step characterisation -/

theorem scoreStep_unresolved (sh : List AnswerEntry)
    (sc : List (String × Int)) (v a : String)
    (h : sh.find? (fun x => x.id = a) = none) :
    scoreStep sh sc (v, a) = sc := by
  unfold scoreStep
  rw [h]

theorem scoreStep_voter (sh : List AnswerEntry) (sc : List (String × Int))
    (v a : String) (picked : AnswerEntry)
    (hfind : sh.find? (fun x => x.id = a) = some picked)
    (hne : picked.ownerId ≠ v) :
    getS (scoreStep sh sc (v, a)) v =
      getS sc v + (if picked.ownerId = "AI" then 1 else -1) := by
  unfold scoreStep
  rw [hfind]
  simp only []
  by_cases hAI : picked.ownerId = "AI"
  · rw [if_pos hAI]
    rw [getS_setA_ne _ _ (fun hc => hne hc.symm), getS_setA_self,
      getS_ensureScore, getS_ensureScore, if_pos hAI]
  · rw [if_neg hAI]
    rw [getS_setA_ne _ _ (fun hc => hne hc.symm), getS_setA_self,
      getS_ensureScore, getS_ensureScore, if_neg hAI]
    ring

theorem scoreStep_owner (sh : List AnswerEntry) (sc : List (String × Int))
    (v a : String) (picked : AnswerEntry)
    (hfind : sh.find? (fun x => x.id = a) = some picked)
    (hne : picked.ownerId ≠ v) :
    getS (scoreStep sh sc (v, a)) picked.ownerId =
      getS sc picked.ownerId + 1 := by
  unfold scoreStep
  rw [hfind]
  simp only []
  by_cases hAI : picked.ownerId = "AI"
  · rw [if_pos hAI, getS_setA_self, getS_setA_ne _ _ hne,
      getS_ensureScore, getS_ensureScore]
  · rw [if_neg hAI, getS_setA_self, getS_setA_ne _ _ hne,
      getS_ensureScore, getS_ensureScore]

theorem scoreStep_other (sh : List AnswerEntry) (sc : List (String × Int))
    (v a : String) (picked : AnswerEntry)
    (hfind : sh.find? (fun x => x.id = a) = some picked)
    (k : String) (hkv : k ≠ v) (hko : k ≠ picked.ownerId) :
    getS (scoreStep sh sc (v, a)) k = getS sc k := by
  unfold scoreStep
  rw [hfind]
  simp only []
  by_cases hAI : picked.ownerId = "AI"
  · rw [if_pos hAI, getS_setA_ne _ _ hko, getS_setA_ne _ _ hkv,
      getS_ensureScore, getS_ensureScore]
  · rw [if_neg hAI, getS_setA_ne _ _ hko, getS_setA_ne _ _ hkv,
      getS_ensureScore, getS_ensureScore]

/-! ## Tally helper -/

theorem tallies_keys_valid {votes : List (String × String)}
    {sh : List AnswerEntry}
    (hok : ∀ p ∈ votes, ∃ e, sh.find? (fun a => a.id = p.2) = some e ∧
      e.ownerId ≠ p.1) :
    ∀ k ∈ keysA (votes.foldl (fun t p => bumpTally t p.2) []),
      ∃ e ∈ sh, e.id = k := by
  intro k hk
  rcases mem_keys_foldl_bump hk with h | h
  · simp [keysA] at h
  · rw [List.mem_map] at h
    obtain ⟨p, hp, hpk⟩ := h
    obtain ⟨e, hfind, -⟩ := hok p hp
    refine ⟨e, List.mem_of_find?_eq_some hfind, ?_⟩
    have he := List.find?_some hfind
    rw [decide_eq_true_eq] at he
    rw [he, hpk]

/-! ## A concrete scenario (Scenarios A–C of the specification)

Room "ABCD": `p1`/"Ann" and `p2`/"Bo" join, the host starts the game,
both submit answers (closing the round with deck ids `a0`,`a1`,`a2`
under the identity shuffle), the host reveals all three answers, `p1`
votes for `p2`'s entry and `p2` votes for the AI entry, which closes the
voting round. -/

def genA : Nat → String := fun n => "a" ++ toString n

def rJ1 : Room := (joinRoom initialRoom "p1" "Ann").1
def rJ2 : Room := (joinRoom rJ1 "p2" "Bo").1
def rStart : Room := (startGame rJ2 "p1").1
def rAns1 : Room := (submitAnswer rStart "p1" "Ann" "red" genA id).1
def rAns2 : Room := (submitAnswer rAns1 "p2" "Bo" "blue" genA id).1
def rRev1 : Room := (nextAnswer rAns2 "p1").1
def rRev2 : Room := (nextAnswer rRev1 "p1").1
def rRev3 : Room := (nextAnswer rRev2 "p1").1
def rVote1 : Room := (submitVote rRev3 "p1" "a1").1
def rVote2 : Room := (submitVote rVote1 "p2" "a2").1

theorem reach_rJ1 : Reachable rJ1 :=
  Reachable.join Reachable.init (by decide) (by decide)

theorem reach_rJ2 : Reachable rJ2 :=
  Reachable.join reach_rJ1 (by decide) (by decide)

theorem reach_rStart : Reachable rStart :=
  Reachable.start reach_rJ2 (by decide)

theorem reach_rAns1 : Reachable rAns1 :=
  Reachable.answer reach_rStart (by decide)

theorem reach_rAns2 : Reachable rAns2 :=
  Reachable.answer reach_rAns1 (by decide)

theorem reach_rRev1 : Reachable rRev1 :=
  Reachable.next reach_rAns2 (by decide)

theorem reach_rRev2 : Reachable rRev2 :=
  Reachable.next reach_rRev1 (by decide)

theorem reach_rRev3 : Reachable rRev3 :=
  Reachable.next reach_rRev2 (by decide)

theorem reach_rVote1 : Reachable rVote1 :=
  Reachable.vote reach_rRev3 (by decide)

theorem reach_rVote2 : Reachable rVote2 :=
  Reachable.vote reach_rVote1 (by decide)

/-! ## Claim theorems -/

/-- **C1**: for every vote `(voterId, answerId)` whose `answerId`
resolves to a deck entry, the scoring step changes scores by exactly:
the voter gains +1 when the resolved entry's owner is the sentinel
`"AI"` and loses 1 otherwise, the resolved entry's owner gains +1, and
every other ledger entry is untouched; an unresolved `answerId`
contributes no delta.  In particular, in Scenario C the final scores
are P1 = −1, P2 = +2, AI = +1. -/
theorem C1_scoring_deltas :
    (∀ (sh : List AnswerEntry) (sc : List (String × Int)) (v a : String),
      (sh.find? (fun x => x.id = a) = none → scoreStep sh sc (v, a) = sc) ∧
      (∀ picked, sh.find? (fun x => x.id = a) = some picked →
        picked.ownerId ≠ v →
        getS (scoreStep sh sc (v, a)) v =
          getS sc v + (if picked.ownerId = "AI" then 1 else -1) ∧
        getS (scoreStep sh sc (v, a)) picked.ownerId =
          getS sc picked.ownerId + 1 ∧
        (∀ k, k ≠ v → k ≠ picked.ownerId →
          getS (scoreStep sh sc (v, a)) k = getS sc k))) ∧
    (getS rVote2.scores "p1" = -1 ∧ getS rVote2.scores "p2" = 2 ∧
      getS rVote2.scores "AI" = 1) := by
  constructor
  · intro sh sc v a
    refine ⟨scoreStep_unresolved sh sc v a, fun picked hf hne => ?_⟩
    exact ⟨scoreStep_voter sh sc v a picked hf hne,
      scoreStep_owner sh sc v a picked hf hne,
      fun k hkv hko => scoreStep_other sh sc v a picked hf k hkv hko⟩
  · exact ⟨by decide, by decide, by decide⟩

theorem C1_scoring_deltas_witness :
    getS (scoreStep rAns2.shuffled rStart.scores ("p1", "a1")) "p1" = -1 ∧
    getS (scoreStep rAns2.shuffled rStart.scores ("p1", "a1")) "p2" = 1 ∧
    getS (scoreStep rAns2.shuffled rStart.scores ("p1", "a1")) "AI" = 0 := by
  have h := (C1_scoring_deltas.1 rAns2.shuffled rStart.scores "p1" "a1").2
    ⟨"a1", "p2", "Bo", "blue"⟩ (by decide) (by decide)
  refine ⟨?_, ?_, ?_⟩
  · rw [h.1]
    decide
  · have h2 : getS (scoreStep rAns2.shuffled rStart.scores ("p1", "a1")) "p2"
        = getS rStart.scores "p2" + 1 := h.2.1
    rw [h2]
    decide
  · have h3 : getS (scoreStep rAns2.shuffled rStart.scores ("p1", "a1")) "AI"
        = getS rStart.scores "AI" := h.2.2 "AI" (by decide) (by decide)
    rw [h3]
    decide

/-- **C2**: whenever voting closes — by a `submit_vote` that makes the
vote count reach the connected-participant count (> 0), or by a
disconnect in voting phase after which the participant count equals the
vote count (> 0) — tallies are recomputed as the frequency count of the
votes' values (their sum equals `|votes|` and every tally key is an id
of a deck entry), scoring is applied over the votes, and the phase
becomes `results` with `resultsRevealCount = 0`. -/
theorem C2_voting_closure :
    (∀ (r : Room) (wsId raw : String) (picked : AnswerEntry), Reachable r →
      r.phase = Phase.voting → hasKeyA r.votes wsId = false →
      trimStr raw ≠ "" →
      r.shuffled.find? (fun x => x.id = trimStr raw) = some picked →
      picked.ownerId ≠ wsId →
      0 < r.clients.length →
      r.clients.length ≤ (r.votes ++ [(wsId, trimStr raw)]).length →
      (submitVote r wsId raw).1.phase = Phase.results ∧
      (submitVote r wsId raw).1.resultsRevealCount = 0 ∧
      (submitVote r wsId raw).1.votes = r.votes ++ [(wsId, trimStr raw)] ∧
      (submitVote r wsId raw).1.tallies =
        (r.votes ++ [(wsId, trimStr raw)]).foldl
          (fun t p => bumpTally t p.2) [] ∧
      sumVals (submitVote r wsId raw).1.tallies =
        (submitVote r wsId raw).1.votes.length ∧
      (∀ k ∈ keysA (submitVote r wsId raw).1.tallies,
        ∃ e ∈ r.shuffled, e.id = k) ∧
      (submitVote r wsId raw).1.scores =
        (r.votes ++ [(wsId, trimStr raw)]).foldl
          (scoreStep r.shuffled) r.scores) ∧
    (∀ (r : Room) (wsId : String), Reachable r →
      r.phase = Phase.voting →
      (r.clients.filter (fun c => c.id ≠ wsId)).length ≠ 0 →
      (r.clients.filter (fun c => c.id ≠ wsId)).length ≤
        (eraseA r.votes wsId).length →
      ∃ r', disconnect r wsId = some r' ∧
        r'.phase = Phase.results ∧ r'.resultsRevealCount = 0 ∧
        r'.votes = eraseA r.votes wsId ∧
        r'.tallies = (eraseA r.votes wsId).foldl
          (fun t p => bumpTally t p.2) [] ∧
        sumVals r'.tallies = r'.votes.length ∧
        (∀ k ∈ keysA r'.tallies, ∃ e ∈ r.shuffled, e.id = k) ∧
        r'.scores = (eraseA r.votes wsId).foldl
          (scoreStep r.shuffled) r.scores) := by
  constructor
  · intro r wsId raw picked hreach hp hk he hfind hself hpos hcount
    obtain ⟨c1, c2, c3, c4, c5, c6, c7, c8, c9, c10, c11, c12, c13⟩ :=
      reachable_inv hreach
    have hnp : ¬(r.phase ≠ Phase.voting) := fun hc => hc hp
    have hclose : 0 < r.clients.length ∧
        r.clients.length ≤ (r.votes ++ [(wsId, trimStr raw)]).length :=
      ⟨hpos, hcount⟩
    have hres : submitVote r wsId raw =
        (closeVoting { r with votes := r.votes ++ [(wsId, trimStr raw)] },
         [OutMsg.voteOk, OutMsg.broadcast, OutMsg.broadcast]) := by
      unfold submitVote
      rw [if_neg hnp, if_neg (by simp [hk]), if_neg he, hfind]
      simp only []
      rw [if_neg hself, if_pos hclose]
    rw [hres]
    have hok : ∀ p ∈ r.votes ++ [(wsId, trimStr raw)],
        ∃ e, r.shuffled.find? (fun a => a.id = p.2) = some e ∧
          e.ownerId ≠ p.1 := by
      intro p hp'
      rcases List.mem_append.1 hp' with hp' | hp'
      · exact c7 p hp'
      · simp only [List.mem_singleton] at hp'
        subst hp'
        exact ⟨picked, hfind, hself⟩
    refine ⟨rfl, rfl, rfl, rfl, ?_, ?_, rfl⟩
    · show sumVals ((r.votes ++ [(wsId, trimStr raw)]).foldl
        (fun t p => bumpTally t p.2) []) =
        (r.votes ++ [(wsId, trimStr raw)]).length
      rw [sumVals_foldl_bump]
      simp [sumVals]
    · exact tallies_keys_valid hok
  · intro r wsId hreach hp hne hcount
    obtain ⟨c1, c2, c3, c4, c5, c6, c7, c8, c9, c10, c11, c12, c13⟩ :=
      reachable_inv hreach
    obtain ⟨hid, hq⟩ := maybeAssign_eq (removeClient r wsId)
    have hcl : ({ removeClient r wsId with hostId := hid } : Room).clients =
        r.clients.filter (fun c => c.id ≠ wsId) := rfl
    have hvotes : ({ removeClient r wsId with hostId := hid } : Room).votes =
        eraseA r.votes wsId := rfl
    have hres : disconnect r wsId = some (closeVoting
        { removeClient r wsId with hostId := hid }) := by
      unfold disconnect
      rw [hq]
      unfold disconnectAux
      rw [if_neg (by rw [hcl]; exact hne), if_pos ?_]
      refine ⟨hp, ?_, ?_⟩
      · rw [hcl]
        exact Nat.pos_of_ne_zero hne
      · rw [hcl, hvotes]
        exact hcount
    refine ⟨_, hres, rfl, rfl, rfl, rfl, ?_, ?_, rfl⟩
    · show sumVals ((eraseA r.votes wsId).foldl
        (fun t p => bumpTally t p.2) []) = (eraseA r.votes wsId).length
      rw [sumVals_foldl_bump]
      simp [sumVals]
    · refine tallies_keys_valid ?_
      intro p hp'
      exact c7 p ((eraseA_sublist r.votes wsId).subset hp')

theorem C2_voting_closure_witness :
    (submitVote rVote1 "p2" "a2").1.phase = Phase.results ∧
    sumVals (submitVote rVote1 "p2" "a2").1.tallies = 2 ∧
    (submitVote rVote1 "p2" "a2").1.resultsRevealCount = 0 ∧
    disconnect rVote1 "p2" ≠ none ∧
    ((disconnect rVote1 "p2").getD initialRoom).phase = Phase.results ∧
    sumVals ((disconnect rVote1 "p2").getD initialRoom).tallies = 1 := by
  have hA := C2_voting_closure.1 rVote1 "p2" "a2"
    ⟨"a2", "AI", "AI", aiAnswerText⟩ reach_rVote1 (by decide) (by decide)
    (by decide) (by decide) (by decide) (by decide) (by decide)
  obtain ⟨r', hsome, hph, hrrc, hvotes, -, hsum, -, -⟩ :=
    C2_voting_closure.2 rVote1 "p2" reach_rVote1 (by decide) (by decide)
      (by decide)
  refine ⟨hA.1, ?_, hA.2.1, ?_, ?_, ?_⟩
  · rw [hA.2.2.2.2.1, hA.2.2.1]
    decide
  · rw [hsome]
    simp
  · rw [hsome]
    simpa using hph
  · rw [hsome]
    simp only [Option.getD_some]
    rw [hsum, hvotes]
    decide

/-- **C3**: in every reachable room state no participant holds a vote
whose target answer-deck entry (under the code's `find?` resolution) is
owned by the voter, and `submit_vote` rejects a self-vote with the
self-vote error and records nothing. -/
theorem C3_no_self_vote :
    (∀ r, Reachable r → ∀ p ∈ r.votes,
      ∀ e, r.shuffled.find? (fun x => x.id = p.2) = some e →
        e.ownerId ≠ p.1) ∧
    (∀ (r : Room) (wsId raw : String) (picked : AnswerEntry),
      r.phase = Phase.voting → hasKeyA r.votes wsId = false →
      trimStr raw ≠ "" →
      r.shuffled.find? (fun x => x.id = trimStr raw) = some picked →
      picked.ownerId = wsId →
      submitVote r wsId raw =
        (r, [OutMsg.errMsg "You cannot vote for your own answer."])) := by
  constructor
  · intro r hreach p hp e hfind
    obtain ⟨e', hfind', hne⟩ := (reachable_inv hreach).votesOk p hp
    rw [hfind] at hfind'
    injection hfind' with he'
    rw [← he'] at hne
    exact hne
  · intro r wsId raw picked hp hk he hfind hself
    have hnp : ¬(r.phase ≠ Phase.voting) := fun hc => hc hp
    unfold submitVote
    rw [if_neg hnp, if_neg (by simp [hk]), if_neg he, hfind]
    simp only []
    rw [if_pos hself]

theorem C3_no_self_vote_witness :
    (⟨"a1", "p2", "Bo", "blue"⟩ : AnswerEntry).ownerId ≠ "p1" ∧
    submitVote rRev3 "p1" "a0" =
      (rRev3, [OutMsg.errMsg "You cannot vote for your own answer."]) := by
  constructor
  · exact C3_no_self_vote.1 rVote2 reach_rVote2 ("p1", "a1") (by decide)
      ⟨"a1", "p2", "Bo", "blue"⟩ (by decide)
  · exact C3_no_self_vote.2 rRev3 "p1" "a0" ⟨"a0", "p1", "Ann", "red"⟩
      (by decide) (by decide) (by decide) (by decide) (by decide)

/-- **C4**: the rendered snapshot obeys the phase gating for every room
and recipient: in `reveal` it exposes exactly the first `revealCount`
deck entries reduced to `{text}` (the `RevealedAnswer` record has no id
and no author field); in `voting` and `results` the full deck appears as
anonymous `{id, text}` options; only in `results`, and only for the
first `resultsRevealCount` entries, are `{id, text, voteCount, author,
isAI}` exposed; in every other phase these lists are empty. -/
theorem C4_view_gating : ∀ (r : Room) (pid : String),
    (r.phase = Phase.reveal →
      (renderFor r pid).revealedAnswers =
        (r.shuffled.take r.revealCount).map (fun a => ⟨a.answer⟩) ∧
      (renderFor r pid).voteOptions = [] ∧
      (renderFor r pid).revealedResults = []) ∧
    (r.phase = Phase.voting →
      (renderFor r pid).voteOptions =
        r.shuffled.map (fun a => ⟨a.id, a.answer⟩) ∧
      (renderFor r pid).revealedAnswers = [] ∧
      (renderFor r pid).revealedResults = []) ∧
    (r.phase = Phase.results →
      (renderFor r pid).voteOptions =
        r.shuffled.map (fun a => ⟨a.id, a.answer⟩) ∧
      (renderFor r pid).revealedResults =
        (r.shuffled.take r.resultsRevealCount).map
          (fun a => ⟨a.id, a.answer, getT r.tallies a.id, a.nickname,
            a.ownerId = "AI"⟩) ∧
      (renderFor r pid).revealedAnswers = []) ∧
    ((r.phase = Phase.lobby ∨ r.phase = Phase.answering) →
      (renderFor r pid).revealedAnswers = [] ∧
      (renderFor r pid).voteOptions = [] ∧
      (renderFor r pid).revealedResults = []) := by
  intro r pid
  refine ⟨fun h => ?_, fun h => ?_, fun h => ?_, fun h => ?_⟩
  · exact ⟨by simp [renderFor, h], by simp [renderFor, h],
      by simp [renderFor, h]⟩
  · exact ⟨by simp [renderFor, h], by simp [renderFor, h],
      by simp [renderFor, h]⟩
  · exact ⟨by simp [renderFor, h], by simp [renderFor, h],
      by simp [renderFor, h]⟩
  · rcases h with h | h
    · exact ⟨by simp [renderFor, h], by simp [renderFor, h],
        by simp [renderFor, h]⟩
    · exact ⟨by simp [renderFor, h], by simp [renderFor, h],
        by simp [renderFor, h]⟩

theorem C4_view_gating_witness :
    (renderFor rRev1 "p1").revealedAnswers = [⟨"red"⟩] ∧
    (renderFor rRev1 "p1").voteOptions = [] ∧
    (renderFor rVote2 "p2").voteOptions =
      [⟨"a0", "red"⟩, ⟨"a1", "blue"⟩, ⟨"a2", aiAnswerText⟩] ∧
    (renderFor rVote2 "p2").revealedResults = [] := by
  have h1 := (C4_view_gating rRev1 "p1").1 (by decide)
  have h2 := (C4_view_gating rVote2 "p2").2.2.1 (by decide)
  refine ⟨?_, h1.2.1, ?_, ?_⟩
  · rw [h1.1]
    decide
  · rw [h2.1]
    decide
  · rw [h2.2.1]
    decide

/-! ## Deck-shape lemmas for C5 -/

theorem buildDeck_length (A : List (String × Submission)) (gen : Nat → String) :
    (buildDeck A gen).length = A.length + 1 := by
  simp [buildDeck]

theorem buildDeck_owners (A : List (String × Submission)) (gen : Nat → String) :
    (buildDeck A gen).map AnswerEntry.ownerId = keysA A ++ ["AI"] := by
  unfold buildDeck
  rw [List.map_append, List.map_map]
  congr 1
  have h1 : (AnswerEntry.ownerId ∘ fun p : Nat × (String × Submission) =>
      (⟨gen p.1, p.2.1, p.2.2.nickname, p.2.2.answer⟩ : AnswerEntry)) =
      (Prod.fst ∘ Prod.snd) := rfl
  rw [h1, ← List.map_map, List.enum_map_snd]
  rfl

theorem countP_self_le_one {l : List String} (h : l.Nodup) (o : String) :
    l.countP (fun x => x = o) ≤ 1 := by
  induction l with
  | nil => simp
  | cons a t ih =>
    rw [List.countP_cons]
    rw [List.nodup_cons] at h
    by_cases ha : a = o
    · subst ha
      have hz : t.countP (fun x => x = a) = 0 := by
        rw [List.countP_eq_zero]
        intro x hx
        simp only [decide_eq_true_eq]
        intro hxa
        exact h.1 (hxa ▸ hx)
      rw [hz]
      simp
    · have hz : (decide (a = o)) = false := by simp [ha]
      rw [hz]
      simpa using ih h.2

/-- **C5**: when a `submit_answer` in the answering phase records a new
submission and the submission count reaches the connected-participant
count (> 0), the round closes: the deck is a permutation of one entry
per submission plus exactly one synthetic `"AI"` entry with the fixed
placeholder text (so `|answerDeck| = |submissions| + 1` with at most one
entry per human owner), the phase becomes `reveal` with
`revealCount = 0`, and a `round_over` notice is fanned out in addition
to the broadcast. -/
theorem C5_round_close : ∀ (r : Room) (wsId nick raw : String)
    (gen : Nat → String) (shuffle : List AnswerEntry → List AnswerEntry),
    Reachable r → (∀ l, List.Perm (shuffle l) l) →
    (⟨wsId, nick⟩ : Client) ∈ r.clients →
    r.phase = Phase.answering → r.locked = true →
    trimStr raw ≠ "" → hasKeyA r.answers wsId = false →
    0 < r.clients.length →
    r.clients.length ≤
      (r.answers ++ [(wsId, (⟨nick, trimStr raw⟩ : Submission))]).length →
    List.Perm (submitAnswer r wsId nick raw gen shuffle).1.shuffled
      (buildDeck (r.answers ++ [(wsId, (⟨nick, trimStr raw⟩ : Submission))])
        gen) ∧
    (submitAnswer r wsId nick raw gen shuffle).1.answers =
      r.answers ++ [(wsId, (⟨nick, trimStr raw⟩ : Submission))] ∧
    (submitAnswer r wsId nick raw gen shuffle).1.shuffled.length =
      (submitAnswer r wsId nick raw gen shuffle).1.answers.length + 1 ∧
    (submitAnswer r wsId nick raw gen shuffle).1.shuffled.countP
      (fun e => e.ownerId = "AI") = 1 ∧
    (∀ o, o ≠ "AI" → (submitAnswer r wsId nick raw gen shuffle).1.shuffled.countP
      (fun e => e.ownerId = o) ≤ 1) ∧
    (∀ e ∈ (submitAnswer r wsId nick raw gen shuffle).1.shuffled,
      e.ownerId = "AI" → e.answer = aiAnswerText) ∧
    (submitAnswer r wsId nick raw gen shuffle).1.phase = Phase.reveal ∧
    (submitAnswer r wsId nick raw gen shuffle).1.revealCount = 0 ∧
    OutMsg.roundOverAll ∈ (submitAnswer r wsId nick raw gen shuffle).2 ∧
    OutMsg.broadcast ∈ (submitAnswer r wsId nick raw gen shuffle).2 := by
  intro r wsId nick raw gen shuffle hreach hperm hmem hph hlock he hk hpos
    hcount
  obtain ⟨c1, c2, c3, c4, c5, c6, c7, c8, c9, c10, c11, c12, c13⟩ :=
    reachable_inv hreach
  have hg : ¬(r.locked = false ∨ r.phase ≠ Phase.answering) := by
    rw [hlock, hph]
    simp
  have hclose : 0 < r.clients.length ∧ r.clients.length ≤
      (r.answers ++ [(wsId, (⟨nick, trimStr raw⟩ : Submission))]).length :=
    ⟨hpos, hcount⟩
  have hres : submitAnswer r wsId nick raw gen shuffle =
      ({ r with
          answers := r.answers ++
            [(wsId, (⟨nick, trimStr raw⟩ : Submission))]
          shuffled := shuffle (buildDeck
            (r.answers ++ [(wsId, (⟨nick, trimStr raw⟩ : Submission))]) gen)
          phase := Phase.reveal
          revealCount := 0 },
       [OutMsg.submittedOk, OutMsg.broadcast, OutMsg.roundOverAll,
        OutMsg.broadcast]) := by
    unfold submitAnswer
    rw [if_neg hg, if_neg he, if_neg (by simp [hk]), if_pos hclose]
  rw [hres]
  have hP : List.Perm (shuffle (buildDeck (r.answers ++
      [(wsId, (⟨nick, trimStr raw⟩ : Submission))]) gen))
      (buildDeck (r.answers ++ [(wsId, (⟨nick, trimStr raw⟩ : Submission))])
        gen) := hperm _
  have hwsId : wsId ∈ r.clients.map Client.id :=
    List.mem_map_of_mem Client.id hmem
  have hkeysAI : ∀ k ∈ keysA (r.answers ++
      [(wsId, (⟨nick, trimStr raw⟩ : Submission))]), k ≠ "AI" := by
    intro k hkm
    rw [keysA_append] at hkm
    rcases List.mem_append.1 hkm with hkm | hkm
    · obtain ⟨c, hc, hcid⟩ := List.mem_map.1 (c4 k hkm)
      rw [← hcid]
      exact c2 c hc
    · simp only [keysA, List.map_cons, List.map_nil,
        List.mem_singleton] at hkm
      subst hkm
      obtain ⟨c, hc, hcid⟩ := List.mem_map.1 hwsId
      rw [← hcid]
      exact c2 c hc
  have hndA : (keysA (r.answers ++
      [(wsId, (⟨nick, trimStr raw⟩ : Submission))])).Nodup := by
    rw [keysA_append, List.nodup_append]
    refine ⟨c3, List.nodup_singleton _, ?_⟩
    simpa [keysA] using (hasKeyA_eq_false_iff _ _).1 hk
  have hownerCount : ∀ o, (buildDeck (r.answers ++
      [(wsId, (⟨nick, trimStr raw⟩ : Submission))]) gen).countP
        (fun e => e.ownerId = o) =
      (keysA (r.answers ++ [(wsId, (⟨nick, trimStr raw⟩ : Submission))])
        ++ ["AI"]).countP (fun x => x = o) := by
    intro o
    have := List.countP_map (fun x => decide (x = o)) AnswerEntry.ownerId
      (buildDeck (r.answers ++ [(wsId, (⟨nick, trimStr raw⟩ : Submission))])
        gen)
    rw [buildDeck_owners] at this
    exact this.symm
  refine ⟨hP, rfl, ?_, ?_, ?_, ?_, rfl, rfl, by simp, by simp⟩
  · show (shuffle _).length = (r.answers ++ _).length + 1
    rw [hP.length_eq, buildDeck_length]
  · show (shuffle _).countP _ = 1
    rw [hP.countP_eq, hownerCount "AI", List.countP_append]
    have hz : (keysA (r.answers ++
        [(wsId, (⟨nick, trimStr raw⟩ : Submission))])).countP
        (fun x => x = "AI") = 0 := by
      rw [List.countP_eq_zero]
      intro k hkm
      simpa using hkeysAI k hkm
    rw [hz]
    decide
  · intro o ho
    show (shuffle _).countP _ ≤ 1
    rw [hP.countP_eq, hownerCount o, List.countP_append]
    have h1 : (keysA (r.answers ++
        [(wsId, (⟨nick, trimStr raw⟩ : Submission))])).countP
        (fun x => x = o) ≤ 1 := countP_self_le_one hndA o
    have h2 : (["AI"] : List String).countP (fun x => x = o) = 0 := by
      rw [List.countP_eq_zero]
      intro k hkm
      simp only [List.mem_singleton] at hkm
      subst hkm
      simpa using fun hc => ho hc.symm
    omega
  · intro e hem hAI
    have hem' : e ∈ buildDeck (r.answers ++
        [(wsId, (⟨nick, trimStr raw⟩ : Submission))]) gen := hP.subset hem
    unfold buildDeck at hem'
    rcases List.mem_append.1 hem' with hem' | hem'
    · obtain ⟨p, hpm, hpe⟩ := List.mem_map.1 hem'
      exfalso
      have : e.ownerId = p.2.1 := by rw [← hpe]
      rw [hAI] at this
      have hk2 : p.2.1 ∈ keysA (r.answers ++
          [(wsId, (⟨nick, trimStr raw⟩ : Submission))]) := by
        have : p.2 ∈ r.answers ++
            [(wsId, (⟨nick, trimStr raw⟩ : Submission))] := by
          have := List.mem_map_of_mem Prod.snd hpm
          rwa [List.enum_map_snd] at this
        exact List.mem_map_of_mem Prod.fst this
      exact hkeysAI p.2.1 hk2 this.symm
    · simp only [List.mem_singleton] at hem'
      rw [hem']

theorem C5_round_close_witness :
    List.Perm rAns2.shuffled (buildDeck rAns2.answers genA) ∧
    rAns2.shuffled.length = 3 ∧
    rAns2.shuffled.countP (fun e => e.ownerId = "AI") = 1 ∧
    rAns2.phase = Phase.reveal ∧ rAns2.revealCount = 0 ∧
    OutMsg.roundOverAll ∈ (submitAnswer rAns1 "p2" "Bo" "blue" genA id).2 := by
  have h := C5_round_close rAns1 "p2" "Bo" "blue" genA id reach_rAns1
    (fun l => List.Perm.refl l) (by decide) (by decide) (by decide)
    (by decide) (by decide) (by decide) (by decide)
  refine ⟨h.1, ?_, h.2.2.2.1, h.2.2.2.2.2.2.1, h.2.2.2.2.2.2.2.1,
    h.2.2.2.2.2.2.2.2.1⟩
  decide

/-! ## Host-migration helpers for C6 -/

theorem maybeAssign_keep {r1 : Room} {h : String} (hh : r1.hostId = some h)
    (hmem : h ∈ r1.clients.map Client.id) :
    (maybeAssignNewHost r1).hostId = some h := by
  unfold maybeAssignNewHost
  rw [if_pos ?_]
  · exact hh
  · constructor
    · rw [hh]
      simp
    · rw [List.any_eq_true]
      obtain ⟨c, hc, hcid⟩ := List.mem_map.1 hmem
      refine ⟨c, hc, ?_⟩
      rw [decide_eq_true_eq, hcid, hh]

theorem maybeAssign_reassign {r1 : Room}
    (hnone : ∀ c ∈ r1.clients, some c.id ≠ r1.hostId) :
    (maybeAssignNewHost r1).hostId = (r1.clients.head?).map Client.id := by
  have hcond : ¬(r1.hostId ≠ none ∧
      (r1.clients.any fun c => some c.id = r1.hostId) = true) := by
    rintro ⟨-, hany⟩
    rw [List.any_eq_true] at hany
    obtain ⟨c, hc, hcid⟩ := hany
    rw [decide_eq_true_eq] at hcid
    exact hnone c hc hcid
  unfold maybeAssignNewHost
  rw [if_neg hcond]

theorem disconnectAux_cases {q : Room} (hne : q.clients.length ≠ 0) :
    disconnectAux q = some q ∨
    (q.phase = Phase.voting ∧ disconnectAux q = some (closeVoting q)) := by
  unfold disconnectAux
  rw [if_neg hne]
  by_cases hc : q.phase = Phase.voting ∧ 0 < q.clients.length ∧
      q.clients.length ≤ q.votes.length
  · rw [if_pos hc]
    exact Or.inr ⟨hc.1, rfl⟩
  · rw [if_neg hc]
    exact Or.inl rfl

/-- **C6**: in every reachable state a non-empty participant list has a
`hostId` that names one of its members; when the host disconnects and
other participants survive, the new host is the earliest surviving
participant in join order (and a surviving non-host keeps the host
unchanged); when the last participant disconnects the room is removed
from the registry. -/
theorem C6_host_invariant : ∀ r, Reachable r →
    (r.clients ≠ [] →
      ∃ h, r.hostId = some h ∧ h ∈ r.clients.map Client.id) ∧
    (∀ wsId : String,
      (r.clients.filter (fun c => c.id ≠ wsId) = [] →
        disconnect r wsId = none) ∧
      (∀ c0 t, r.clients.filter (fun c => c.id ≠ wsId) = c0 :: t →
        ∃ r', disconnect r wsId = some r' ∧
          r'.clients = c0 :: t ∧
          (r.hostId = some wsId → r'.hostId = some c0.id) ∧
          (∀ h, r.hostId = some h → h ≠ wsId →
            r'.hostId = some h))) := by
  intro r hreach
  obtain ⟨c1, c2, c3, c4, c5, c6, c7, c8, c9, c10, c11, c12, c13⟩ :=
    reachable_inv hreach
  constructor
  · intro hne
    rcases hh : r.hostId with _ | h
    · exact absurd hh (c11 hne)
    · exact ⟨h, rfl, c10 h hh⟩
  · intro wsId
    constructor
    · intro hfil
      unfold disconnect
      obtain ⟨hid, hq⟩ := maybeAssign_eq (removeClient r wsId)
      rw [hq]
      unfold disconnectAux
      rw [if_pos ?_]
      show (r.clients.filter (fun c => c.id ≠ wsId)).length = 0
      rw [hfil]
      rfl
    · intro c0 t hfil
      obtain ⟨hid, hq⟩ := maybeAssign_eq (removeClient r wsId)
      have hqcl : (maybeAssignNewHost (removeClient r wsId)).clients =
          c0 :: t := by
        rw [hq]
        exact hfil
      have hlen : (maybeAssignNewHost (removeClient r wsId)).clients.length
          ≠ 0 := by
        rw [hqcl]
        simp
      have hdep : r.hostId = some wsId →
          (maybeAssignNewHost (removeClient r wsId)).hostId = some c0.id := by
        intro hh
        rw [maybeAssign_reassign ?_]
        · show ((r.clients.filter (fun c => c.id ≠ wsId)).head?).map
            Client.id = some c0.id
          rw [hfil]
          rfl
        · intro c hc
          show some c.id ≠ r.hostId
          rw [hh]
          have hc2 := List.of_mem_filter hc
          rw [decide_eq_true_eq] at hc2
          intro hcontra
          rw [Option.some_inj] at hcontra
          exact hc2 hcontra
      have hsur : ∀ h, r.hostId = some h → h ≠ wsId →
          (maybeAssignNewHost (removeClient r wsId)).hostId = some h := by
        intro h hh hne2
        refine maybeAssign_keep hh ?_
        show h ∈ (r.clients.filter (fun c => c.id ≠ wsId)).map Client.id
        exact mem_ids_filter (c10 h hh) hne2
      rcases disconnectAux_cases hlen with hcase | ⟨-, hcase⟩
      · exact ⟨_, hcase, hqcl, hdep, hsur⟩
      · refine ⟨_, hcase, ?_, ?_, ?_⟩
        · exact hqcl
        · intro hh
          exact hdep hh
        · intro h hh hne2
          exact hsur h hh hne2

theorem C6_host_invariant_witness :
    rVote1.hostId = some "p1" ∧
    disconnect rVote1 "p1" ≠ none ∧
    ((disconnect rVote1 "p1").getD initialRoom).hostId = some "p2" ∧
    disconnect rJ1 "p1" = none := by
  have h := C6_host_invariant rVote1 reach_rVote1
  obtain ⟨r', hsome, hcl, hdep, -⟩ :=
    (h.2 "p1").2 ⟨"p2", "Bo"⟩ [] (by decide)
  have hEmpty := (C6_host_invariant rJ1 reach_rJ1).2 "p1" |>.1 (by decide)
  refine ⟨by decide, ?_, ?_, hEmpty⟩
  · rw [hsome]
    simp
  · rw [hsome]
    simp only [Option.getD_some]
    have := hdep (by decide)
    simpa using this

/-! ## Result-shape case lemmas, one per handler -/

theorem joinRoom_cases (r : Room) (wsId nick : String) :
    (joinRoom r wsId nick).1 = r ∨
    (joinRoom r wsId nick).1 = { r with
      clients := r.clients ++ [⟨wsId, normalizeNick nick⟩]
      hostId := if r.hostId = none then some wsId else r.hostId
      scores := ensureScore (ensureScore r.scores wsId) "AI" } := by
  by_cases hl : r.locked
  · left
    simp [joinRoom, hl]
  · right
    simp [joinRoom, hl]

theorem nextAnswer_cases (r : Room) (wsId : String) :
    (nextAnswer r wsId).1 = r ∨
    (r.phase = Phase.reveal ∧
      ((nextAnswer r wsId).1 = { r with revealCount := r.revealCount + 1 } ∨
       (nextAnswer r wsId).1 =
         { r with
            revealCount := r.revealCount + 1
            phase := Phase.voting
            votes := []
            tallies := []
            resultsRevealCount := 0 })) := by
  by_cases hp : r.phase ≠ Phase.reveal
  · left
    simp [nextAnswer, hp]
  · push_neg at hp
    by_cases hh : r.hostId ≠ some wsId
    · left
      simp [nextAnswer, hp, hh]
    · by_cases hlt : r.revealCount < r.shuffled.length
      · by_cases hdone : r.shuffled.length ≤ r.revealCount + 1
        · right
          exact ⟨hp, Or.inr (by simp [nextAnswer, hp, hh, hlt, hdone])⟩
        · right
          exact ⟨hp, Or.inl (by simp [nextAnswer, hp, hh, hlt, hdone])⟩
      · left
        simp [nextAnswer, hp, hh, hlt]

theorem nextResult_cases (r : Room) (wsId : String) :
    (nextResult r wsId).1 = r ∨
    (r.phase = Phase.results ∧ r.resultsRevealCount < r.shuffled.length ∧
      (nextResult r wsId).1 =
        { r with resultsRevealCount := r.resultsRevealCount + 1 }) := by
  by_cases hp : r.phase ≠ Phase.results
  · left
    simp [nextResult, hp]
  · push_neg at hp
    by_cases hh : r.hostId ≠ some wsId
    · left
      simp [nextResult, hp, hh]
    · by_cases hlt : r.resultsRevealCount < r.shuffled.length
      · right
        exact ⟨hp, hlt, by simp [nextResult, hp, hh, hlt]⟩
      · left
        simp [nextResult, hp, hh, hlt]

theorem submitAnswer_cases (r : Room) (wsId nick raw : String)
    (gen : Nat → String) (shuffle : List AnswerEntry → List AnswerEntry) :
    (submitAnswer r wsId nick raw gen shuffle).1 = r ∨
    (r.phase = Phase.answering ∧
      ((submitAnswer r wsId nick raw gen shuffle).1 = { r with
          answers := r.answers ++
            [(wsId, (⟨nick, trimStr raw⟩ : Submission))] } ∨
       (submitAnswer r wsId nick raw gen shuffle).1 = { r with
          answers := r.answers ++
            [(wsId, (⟨nick, trimStr raw⟩ : Submission))]
          shuffled := shuffle (buildDeck (r.answers ++
            [(wsId, (⟨nick, trimStr raw⟩ : Submission))]) gen)
          phase := Phase.reveal
          revealCount := 0 })) := by
  by_cases hg : r.locked = false ∨ r.phase ≠ Phase.answering
  · left
    simp [submitAnswer, hg]
  · have hg' := hg
    push_neg at hg'
    by_cases he : trimStr raw = ""
    · left
      simp [submitAnswer, hg, he]
    · by_cases hk : hasKeyA r.answers wsId
      · left
        simp [submitAnswer, hg, he, hk]
      · by_cases hclose : 0 < r.clients.length ∧ r.clients.length ≤
            (r.answers ++ [(wsId, (⟨nick, trimStr raw⟩ : Submission))]).length
        · refine Or.inr ⟨hg'.2, Or.inr ?_⟩
          unfold submitAnswer
          rw [if_neg hg, if_neg he, if_neg hk, if_pos hclose]
        · refine Or.inr ⟨hg'.2, Or.inl ?_⟩
          unfold submitAnswer
          rw [if_neg hg, if_neg he, if_neg hk, if_neg hclose]

theorem submitVote_cases (r : Room) (wsId raw : String) :
    (submitVote r wsId raw).1 = r ∨
    (r.phase = Phase.voting ∧
      ((submitVote r wsId raw).1 =
        { r with votes := r.votes ++ [(wsId, trimStr raw)] } ∨
       (submitVote r wsId raw).1 =
        closeVoting { r with votes := r.votes ++ [(wsId, trimStr raw)] })) := by
  by_cases hp : r.phase ≠ Phase.voting
  · left
    simp [submitVote, hp]
  · push_neg at hp
    have hnp : ¬(r.phase ≠ Phase.voting) := fun hc => hc hp
    by_cases hk : hasKeyA r.votes wsId
    · left
      simp [submitVote, hnp, hk]
    · by_cases he : trimStr raw = ""
      · left
        simp [submitVote, hnp, hk, he]
      · rcases hfind : r.shuffled.find? (fun a => a.id = trimStr raw) with
          _ | picked
        · left
          simp [submitVote, hnp, hk, he, hfind]
        · by_cases hself : picked.ownerId = wsId
          · left
            simp [submitVote, hnp, hk, he, hfind, hself]
          · by_cases hclose : 0 < r.clients.length ∧ r.clients.length ≤
                (r.votes ++ [(wsId, trimStr raw)]).length
            · refine Or.inr ⟨hp, Or.inr ?_⟩
              unfold submitVote
              rw [if_neg hnp, if_neg (by simp [hk]), if_neg he, hfind]
              simp only []
              rw [if_neg hself, if_pos hclose]
            · refine Or.inr ⟨hp, Or.inl ?_⟩
              unfold submitVote
              rw [if_neg hnp, if_neg (by simp [hk]), if_neg he, hfind]
              simp only []
              rw [if_neg hself, if_neg hclose]

/-- **C7**: `revealCount` and `resultsRevealCount` never exceed the deck
length in any reachable state; `next_answer` / `next_result` increment
their counter by exactly one only while it is strictly below the deck
length and change nothing otherwise; the counters never decrease under
any operation other than the round starts — join, next_answer,
submit_vote, next_result, disconnect, and every non-closing
`submit_answer` path leave them non-decreasing — while `start_game`,
`new_round`, `reset_game` and the deck rebuild of a closing
`submit_answer` reset them to 0. -/
theorem C7_counter_bounds :
    (∀ r, Reachable r → r.revealCount ≤ r.shuffled.length ∧
      r.resultsRevealCount ≤ r.shuffled.length) ∧
    (∀ (r : Room) (wsId : String), r.phase = Phase.reveal →
      r.hostId = some wsId →
      (r.revealCount < r.shuffled.length →
        (nextAnswer r wsId).1.revealCount = r.revealCount + 1) ∧
      (¬r.revealCount < r.shuffled.length → (nextAnswer r wsId).1 = r)) ∧
    (∀ (r : Room) (wsId : String), r.phase = Phase.results →
      r.hostId = some wsId →
      (r.resultsRevealCount < r.shuffled.length →
        (nextResult r wsId).1.resultsRevealCount =
          r.resultsRevealCount + 1) ∧
      (¬r.resultsRevealCount < r.shuffled.length →
        (nextResult r wsId).1 = r)) ∧
    (∀ r, Reachable r →
      (∀ wsId nick, r.revealCount ≤ (joinRoom r wsId nick).1.revealCount ∧
        r.resultsRevealCount ≤
          (joinRoom r wsId nick).1.resultsRevealCount) ∧
      (∀ wsId, r.revealCount ≤ (nextAnswer r wsId).1.revealCount ∧
        r.resultsRevealCount ≤ (nextAnswer r wsId).1.resultsRevealCount) ∧
      (∀ wsId raw, r.revealCount ≤ (submitVote r wsId raw).1.revealCount ∧
        r.resultsRevealCount ≤
          (submitVote r wsId raw).1.resultsRevealCount) ∧
      (∀ wsId, r.revealCount ≤ (nextResult r wsId).1.revealCount ∧
        r.resultsRevealCount ≤ (nextResult r wsId).1.resultsRevealCount) ∧
      (∀ wsId r', disconnect r wsId = some r' →
        r.revealCount ≤ r'.revealCount ∧
        r.resultsRevealCount ≤ r'.resultsRevealCount) ∧
      (∀ (wsId nick raw : String) (gen : Nat → String)
        (shuffle : List AnswerEntry → List AnswerEntry),
        (r.revealCount ≤
            (submitAnswer r wsId nick raw gen shuffle).1.revealCount ∧
          r.resultsRevealCount ≤
            (submitAnswer r wsId nick raw gen shuffle).1.resultsRevealCount)
        ∨
        ((submitAnswer r wsId nick raw gen shuffle).1.phase = Phase.reveal ∧
          (submitAnswer r wsId nick raw gen shuffle).1.revealCount = 0 ∧
          (submitAnswer r wsId nick raw gen shuffle).1.resultsRevealCount
            = 0))) ∧
    (∀ (r : Room) (wsId : String), r.hostId = some wsId →
      (startGame r wsId).1.revealCount = 0 ∧
      (startGame r wsId).1.resultsRevealCount = 0 ∧
      (newRound r wsId).1.revealCount = 0 ∧
      (newRound r wsId).1.resultsRevealCount = 0 ∧
      (resetGame r wsId).1.revealCount = 0 ∧
      (resetGame r wsId).1.resultsRevealCount = 0) ∧
    (∀ (r : Room) (wsId nick raw : String) (gen : Nat → String)
      (shuffle : List AnswerEntry → List AnswerEntry), Reachable r →
      r.locked = true → r.phase = Phase.answering → trimStr raw ≠ "" →
      hasKeyA r.answers wsId = false → 0 < r.clients.length →
      r.clients.length ≤
        (r.answers ++ [(wsId, (⟨nick, trimStr raw⟩ : Submission))]).length →
      (submitAnswer r wsId nick raw gen shuffle).1.revealCount = 0 ∧
      (submitAnswer r wsId nick raw gen shuffle).1.resultsRevealCount
        = 0) := by
  refine ⟨?_, ?_, ?_, ?_, ?_, ?_⟩
  · intro r hreach
    exact ⟨(reachable_inv hreach).revealLe, (reachable_inv hreach).resultsLe⟩
  · intro r wsId hp hh
    have hnp : ¬(r.phase ≠ Phase.reveal) := fun hc => hc hp
    have hnh : ¬(r.hostId ≠ some wsId) := fun hc => hc hh
    constructor
    · intro hlt
      unfold nextAnswer
      rw [if_neg hnp, if_neg hnh, if_pos hlt]
      by_cases hdone : r.shuffled.length ≤ r.revealCount + 1
      · rw [if_pos hdone]
      · rw [if_neg hdone]
    · intro hlt
      unfold nextAnswer
      rw [if_neg hnp, if_neg hnh, if_neg hlt]
  · intro r wsId hp hh
    have hnp : ¬(r.phase ≠ Phase.results) := fun hc => hc hp
    have hnh : ¬(r.hostId ≠ some wsId) := fun hc => hc hh
    constructor
    · intro hlt
      unfold nextResult
      rw [if_neg hnp, if_neg hnh, if_pos hlt]
    · intro hlt
      unfold nextResult
      rw [if_neg hnp, if_neg hnh, if_neg hlt]
  · intro r hreach
    obtain ⟨c1, c2, c3, c4, c5, c6, c7, c8, c9, c10, c11, c12, c13⟩ :=
      reachable_inv hreach
    refine ⟨?_, ?_, ?_, ?_, ?_, ?_⟩
    · intro wsId nick
      rcases joinRoom_cases r wsId nick with h | h <;> rw [h] <;>
        exact ⟨le_refl _, le_refl _⟩
    · intro wsId
      rcases nextAnswer_cases r wsId with h | ⟨hp, h | h⟩
      · rw [h]
        exact ⟨le_refl _, le_refl _⟩
      · rw [h]
        exact ⟨Nat.le_succ _, le_refl _⟩
      · rw [h]
        refine ⟨Nat.le_succ _, ?_⟩
        show r.resultsRevealCount ≤ 0
        rw [c13 (Or.inr (Or.inl hp))]
    · intro wsId raw
      rcases submitVote_cases r wsId raw with h | ⟨hp, h | h⟩
      · rw [h]
        exact ⟨le_refl _, le_refl _⟩
      · rw [h]
        exact ⟨le_refl _, le_refl _⟩
      · rw [h]
        refine ⟨le_refl _, ?_⟩
        show r.resultsRevealCount ≤ 0
        rw [c13 (Or.inr (Or.inr hp))]
    · intro wsId
      rcases nextResult_cases r wsId with h | ⟨-, -, h⟩
      · rw [h]
        exact ⟨le_refl _, le_refl _⟩
      · rw [h]
        exact ⟨le_refl _, Nat.le_succ _⟩
    · intro wsId r' hdis
      obtain ⟨hid, hq⟩ := maybeAssign_eq (removeClient r wsId)
      rw [show disconnect r wsId =
        disconnectAux (maybeAssignNewHost (removeClient r wsId)) from rfl,
        hq] at hdis
      by_cases hlen : ({ removeClient r wsId with hostId := hid } :
          Room).clients.length = 0
      · unfold disconnectAux at hdis
        rw [if_pos hlen] at hdis
        cases hdis
      · rcases disconnectAux_cases hlen with hcase | ⟨hph, hcase⟩
        · rw [hdis] at hcase
          injection hcase with hcase
          rw [hcase]
          exact ⟨le_refl _, le_refl _⟩
        · rw [hdis] at hcase
          injection hcase with hcase
          rw [hcase]
          refine ⟨le_refl _, ?_⟩
          show r.resultsRevealCount ≤ 0
          have hph' : r.phase = Phase.voting := hph
          rw [c13 (Or.inr (Or.inr hph'))]
    · intro wsId nick raw gen shuffle
      rcases submitAnswer_cases r wsId nick raw gen shuffle with
        h | ⟨hph, h | h⟩
      · rw [h]
        exact Or.inl ⟨le_refl _, le_refl _⟩
      · rw [h]
        exact Or.inl ⟨le_refl _, le_refl _⟩
      · rw [h]
        refine Or.inr ⟨rfl, rfl, ?_⟩
        show r.resultsRevealCount = 0
        exact c13 (Or.inl hph)
  · intro r wsId hh
    have hnh : ¬(r.hostId ≠ some wsId) := fun hc => hc hh
    refine ⟨?_, ?_, ?_, ?_, ?_, ?_⟩ <;>
      simp [startGame, newRound, resetGame, hnh, resetRound]
  · intro r wsId nick raw gen shuffle hreach hlock hph he hk hpos hcount
    obtain ⟨c1, c2, c3, c4, c5, c6, c7, c8, c9, c10, c11, c12, c13⟩ :=
      reachable_inv hreach
    have hg : ¬(r.locked = false ∨ r.phase ≠ Phase.answering) := by
      rw [hlock, hph]
      simp
    have hres : (submitAnswer r wsId nick raw gen shuffle).1 = { r with
        answers := r.answers ++ [(wsId, (⟨nick, trimStr raw⟩ : Submission))]
        shuffled := shuffle (buildDeck (r.answers ++
          [(wsId, (⟨nick, trimStr raw⟩ : Submission))]) gen)
        phase := Phase.reveal
        revealCount := 0 } := by
      unfold submitAnswer
      rw [if_neg hg, if_neg he, if_neg (by simp [hk]), if_pos ⟨hpos, hcount⟩]
    rw [hres]
    exact ⟨rfl, c13 (Or.inl hph)⟩

theorem C7_counter_bounds_witness :
    rRev1.revealCount ≤ rRev1.shuffled.length ∧
    (nextAnswer rRev1 "p1").1.revealCount = 2 ∧
    (nextResult rVote2 "p1").1.resultsRevealCount = 1 ∧
    (startGame rVote2 "p1").1.revealCount = 0 ∧
    rStart.revealCount ≤
      (submitAnswer rStart "p1" "Ann" "red" genA id).1.revealCount ∧
    rStart.resultsRevealCount ≤
      (submitAnswer rStart "p1" "Ann" "red" genA id).1.resultsRevealCount ∧
    (submitAnswer rAns1 "p2" "Bo" "blue" genA id).1.revealCount = 0 := by
  obtain ⟨h1, h2, h3, h4, h5, h6⟩ := C7_counter_bounds
  have hmono := (h4 rStart reach_rStart).2.2.2.2.2 "p1" "Ann" "red" genA id
  have hmono' : rStart.revealCount ≤
      (submitAnswer rStart "p1" "Ann" "red" genA id).1.revealCount ∧
      rStart.resultsRevealCount ≤
        (submitAnswer rStart "p1" "Ann" "red" genA id).1.resultsRevealCount
      := by
    rcases hmono with hle | ⟨hph, -⟩
    · exact hle
    · exact absurd hph (by decide)
  refine ⟨(h1 rRev1 reach_rRev1).1, ?_, ?_, ?_, hmono'.1, hmono'.2, ?_⟩
  · rw [(h2 rRev1 "p1" (by decide) (by decide)).1 (by decide)]
    decide
  · rw [(h3 rVote2 "p1" (by decide) (by decide)).1 (by decide)]
    decide
  · exact (h5 rVote2 "p1" (by decide)).1
  · exact (h6 rAns1 "p2" "Bo" "blue" genA id reach_rAns1 (by decide)
      (by decide) (by decide) (by decide) (by decide) (by decide)).1

/-- **C8**: `submit_answer` by a participant who already has a
submission this round, and `submit_vote` by a participant who already
has a recorded vote, are idempotent: the handler returns only the
acknowledgment, the room (every field) is unchanged, and there is no
broadcast. -/
theorem C8_idempotent_resubmission :
    (∀ (r : Room) (wsId nick raw : String) (gen : Nat → String)
      (shuffle : List AnswerEntry → List AnswerEntry),
      r.locked = true → r.phase = Phase.answering → trimStr raw ≠ "" →
      hasKeyA r.answers wsId = true →
      submitAnswer r wsId nick raw gen shuffle =
        (r, [OutMsg.submittedOk])) ∧
    (∀ (r : Room) (wsId raw : String), r.phase = Phase.voting →
      hasKeyA r.votes wsId = true →
      submitVote r wsId raw = (r, [OutMsg.voteOk])) := by
  constructor
  · intro r wsId nick raw gen shuffle hlock hph he hk
    have hg : ¬(r.locked = false ∨ r.phase ≠ Phase.answering) := by
      rw [hlock, hph]
      simp
    unfold submitAnswer
    rw [if_neg hg, if_neg he, if_pos hk]
  · intro r wsId raw hp hk
    have hnp : ¬(r.phase ≠ Phase.voting) := fun hc => hc hp
    unfold submitVote
    rw [if_neg hnp, if_pos hk]

theorem C8_idempotent_resubmission_witness :
    submitAnswer rAns1 "p1" "Ann" "red" genA id =
      (rAns1, [OutMsg.submittedOk]) ∧
    submitVote rVote1 "p1" "a2" = (rVote1, [OutMsg.voteOk]) :=
  ⟨C8_idempotent_resubmission.1 rAns1 "p1" "Ann" "red" genA id (by decide)
      (by decide) (by decide) (by decide),
   C8_idempotent_resubmission.2 rVote1 "p1" "a2" (by decide) (by decide)⟩

/-- **C9**: every rejected command leaves the room exactly as it was:
join on a locked room, a privileged command from a non-host, an answer
outside the answering phase, an empty/whitespace-only answer, a vote
outside the voting phase, an empty or unknown `answerId`, and a
self-vote all return the untouched room with only the documented notice
(and no broadcast). -/
theorem C9_rejections_pure :
    (∀ (r : Room) (wsId nick : String), r.locked = true →
      joinRoom r wsId nick = (r, [OutMsg.joinRejected])) ∧
    (∀ (r : Room) (wsId : String), r.hostId ≠ some wsId →
      startGame r wsId =
        (r, [OutMsg.errMsg "Only the host can start the game."]) ∧
      newRound r wsId =
        (r, [OutMsg.errMsg "Only the host can start a new round."]) ∧
      resetGame r wsId =
        (r, [OutMsg.errMsg "Only the host can reset the game."])) ∧
    (∀ (r : Room) (wsId : String), r.phase = Phase.reveal →
      r.hostId ≠ some wsId →
      nextAnswer r wsId =
        (r, [OutMsg.errMsg "Only the host can reveal the next answer."])) ∧
    (∀ (r : Room) (wsId : String), r.phase = Phase.results →
      r.hostId ≠ some wsId →
      nextResult r wsId =
        (r, [OutMsg.errMsg "Only the host can reveal the next result."])) ∧
    (∀ (r : Room) (wsId nick raw : String) (gen : Nat → String)
      (shuffle : List AnswerEntry → List AnswerEntry),
      r.locked = false ∨ r.phase ≠ Phase.answering →
      submitAnswer r wsId nick raw gen shuffle =
        (r, [OutMsg.errMsg "Game not started yet."])) ∧
    (∀ (r : Room) (wsId nick raw : String) (gen : Nat → String)
      (shuffle : List AnswerEntry → List AnswerEntry),
      r.locked = true → r.phase = Phase.answering → trimStr raw = "" →
      submitAnswer r wsId nick raw gen shuffle = (r, [])) ∧
    (∀ (r : Room) (wsId raw : String), r.phase ≠ Phase.voting →
      submitVote r wsId raw = (r, [OutMsg.errMsg "Voting is not active."])) ∧
    (∀ (r : Room) (wsId raw : String), r.phase = Phase.voting →
      hasKeyA r.votes wsId = false → trimStr raw = "" →
      submitVote r wsId raw = (r, [])) ∧
    (∀ (r : Room) (wsId raw : String), r.phase = Phase.voting →
      hasKeyA r.votes wsId = false → trimStr raw ≠ "" →
      r.shuffled.find? (fun a => a.id = trimStr raw) = none →
      submitVote r wsId raw = (r, [])) ∧
    (∀ (r : Room) (wsId raw : String) (picked : AnswerEntry),
      r.phase = Phase.voting → hasKeyA r.votes wsId = false →
      trimStr raw ≠ "" →
      r.shuffled.find? (fun a => a.id = trimStr raw) = some picked →
      picked.ownerId = wsId →
      submitVote r wsId raw =
        (r, [OutMsg.errMsg "You cannot vote for your own answer."])) := by
  refine ⟨?_, ?_, ?_, ?_, ?_, ?_, ?_, ?_, ?_, ?_⟩
  · intro r wsId nick hl
    unfold joinRoom
    rw [if_pos hl]
  · intro r wsId hh
    exact ⟨by unfold startGame; rw [if_pos hh],
      by unfold newRound; rw [if_pos hh],
      by unfold resetGame; rw [if_pos hh]⟩
  · intro r wsId hp hh
    have hnp : ¬(r.phase ≠ Phase.reveal) := fun hc => hc hp
    unfold nextAnswer
    rw [if_neg hnp, if_pos hh]
  · intro r wsId hp hh
    have hnp : ¬(r.phase ≠ Phase.results) := fun hc => hc hp
    unfold nextResult
    rw [if_neg hnp, if_pos hh]
  · intro r wsId nick raw gen shuffle hg
    unfold submitAnswer
    rw [if_pos hg]
  · intro r wsId nick raw gen shuffle hlock hph he
    have hg : ¬(r.locked = false ∨ r.phase ≠ Phase.answering) := by
      rw [hlock, hph]
      simp
    unfold submitAnswer
    rw [if_neg hg, if_pos he]
  · intro r wsId raw hp
    unfold submitVote
    rw [if_pos hp]
  · intro r wsId raw hp hk he
    have hnp : ¬(r.phase ≠ Phase.voting) := fun hc => hc hp
    unfold submitVote
    rw [if_neg hnp, if_neg (by simp [hk]), if_pos he]
  · intro r wsId raw hp hk he hfind
    have hnp : ¬(r.phase ≠ Phase.voting) := fun hc => hc hp
    unfold submitVote
    rw [if_neg hnp, if_neg (by simp [hk]), if_neg he, hfind]
  · intro r wsId raw picked hp hk he hfind hself
    have hnp : ¬(r.phase ≠ Phase.voting) := fun hc => hc hp
    unfold submitVote
    rw [if_neg hnp, if_neg (by simp [hk]), if_neg he, hfind]
    simp only []
    rw [if_pos hself]

theorem C9_rejections_pure_witness :
    joinRoom rStart "p9" "Zed" = (rStart, [OutMsg.joinRejected]) ∧
    startGame rJ2 "p2" =
      (rJ2, [OutMsg.errMsg "Only the host can start the game."]) ∧
    nextAnswer rAns2 "p2" =
      (rAns2, [OutMsg.errMsg "Only the host can reveal the next answer."]) ∧
    nextResult rVote2 "p2" =
      (rVote2, [OutMsg.errMsg "Only the host can reveal the next result."]) ∧
    submitAnswer rJ2 "p1" "Ann" "red" genA id =
      (rJ2, [OutMsg.errMsg "Game not started yet."]) ∧
    submitAnswer rStart "p1" "Ann" "   " genA id = (rStart, []) ∧
    submitVote rStart "p1" "a0" =
      (rStart, [OutMsg.errMsg "Voting is not active."]) ∧
    submitVote rRev3 "p1" "  " = (rRev3, []) ∧
    submitVote rRev3 "p1" "zz" = (rRev3, []) := by
  obtain ⟨h1, h2, h3, h4, h5, h6, h7, h8, h9, h10⟩ := C9_rejections_pure
  exact ⟨h1 rStart "p9" "Zed" (by decide),
    (h2 rJ2 "p2" (by decide)).1,
    h3 rAns2 "p2" (by decide) (by decide),
    h4 rVote2 "p2" (by decide) (by decide),
    h5 rJ2 "p1" "Ann" "red" genA id (by decide),
    h6 rStart "p1" "Ann" "   " genA id (by decide) (by decide) (by decide),
    h7 rStart "p1" "a0" (by decide),
    h8 rRev3 "p1" "  " (by decide) (by decide) (by decide),
    h9 rRev3 "p1" "zz" (by decide) (by decide) (by decide) (by decide)⟩

/-- **C10**: on disconnect the departing participant's pending
submission and vote are deleted with their membership; consequently, in
every reachable state every key of `answers` and of `votes` is the id of
a currently connected participant, and `|votes| ≤ |participants|`. -/
theorem C10_progress_keys : ∀ r, Reachable r →
    (∀ k ∈ keysA r.answers, k ∈ r.clients.map Client.id) ∧
    (∀ k ∈ keysA r.votes, k ∈ r.clients.map Client.id) ∧
    r.votes.length ≤ r.clients.length ∧
    (∀ (wsId : String) (r' : Room), disconnect r wsId = some r' →
      hasKeyA r'.answers wsId = false ∧ hasKeyA r'.votes wsId = false ∧
      wsId ∉ r'.clients.map Client.id) := by
  intro r hreach
  obtain ⟨c1, c2, c3, c4, c5, c6, c7, c8, c9, c10, c11, c12, c13⟩ :=
    reachable_inv hreach
  refine ⟨c4, c6, ?_, ?_⟩
  · have hsubperm : List.Subperm (keysA r.votes) (r.clients.map Client.id) :=
      List.Nodup.subperm c5 c6
    calc r.votes.length = (keysA r.votes).length := by simp [keysA]
      _ ≤ (r.clients.map Client.id).length := hsubperm.length_le
      _ = r.clients.length := by simp
  · intro wsId r' hdis
    have hA : hasKeyA (eraseA r.answers wsId) wsId = false := by
      unfold hasKeyA
      rw [getA_eraseA_self _ _ c3]
      rfl
    have hV : hasKeyA (eraseA r.votes wsId) wsId = false := by
      unfold hasKeyA
      rw [getA_eraseA_self _ _ c5]
      rfl
    have hC : wsId ∉ (r.clients.filter (fun c => c.id ≠ wsId)).map
        Client.id := by
      intro hcontra
      obtain ⟨c, hc, hcid⟩ := List.mem_map.1 hcontra
      have hfc := List.of_mem_filter hc
      rw [decide_eq_true_eq] at hfc
      exact hfc hcid
    obtain ⟨hid, hq⟩ := maybeAssign_eq (removeClient r wsId)
    rw [show disconnect r wsId =
      disconnectAux (maybeAssignNewHost (removeClient r wsId)) from rfl,
      hq] at hdis
    by_cases hlen : ({ removeClient r wsId with hostId := hid } :
        Room).clients.length = 0
    · unfold disconnectAux at hdis
      rw [if_pos hlen] at hdis
      cases hdis
    · rcases disconnectAux_cases hlen with hcase | ⟨-, hcase⟩ <;>
        rw [hdis] at hcase <;> injection hcase with hcase <;>
        rw [hcase] <;> exact ⟨hA, hV, hC⟩

theorem C10_progress_keys_witness :
    rVote1.votes.length ≤ rVote1.clients.length ∧
    hasKeyA ((disconnect rVote1 "p1").getD initialRoom).votes "p1" = false ∧
    "p1" ∉ ((disconnect rVote1 "p1").getD initialRoom).clients.map
      Client.id := by
  have h := C10_progress_keys rVote1 reach_rVote1
  have hd : disconnect rVote1 "p1" =
      some ((disconnect rVote1 "p1").getD initialRoom) := by decide
  obtain ⟨hA, hV, hC⟩ := h.2.2.2 "p1" ((disconnect rVote1 "p1").getD
    initialRoom) hd
  exact ⟨h.2.2.1, hV, hC⟩

end Rooms
